import Mathlib

/-
  Shallow embedding of the Blackjack contract (Solidity 0.8, FHEVM variant).

  Modelling conventions:
  * `uint256` / `uint8` quantities are modelled as `Nat`.  Solidity 0.8
    arithmetic reverts on overflow/underflow and every quantity handled here
    stays far below 2^256 in reachable states; the one conversion the code
    itself could overflow (`chipsToWei`) is modelled with an explicit
    overflow check returning `Option`.
  * A reverting call is modelled as `none`; a successful call as `some s`
    with the post-state.
  * Addresses are modelled as `Nat`.
  * The encrypted card mirrors (`encRanks`/`encSuits`) are opaque FHE
    ciphertext handles kept in lockstep with the clear `cards` arrays; they
    carry no arithmetic content and are omitted, as are events.
  * `block.timestamp`, `msg.value` and the shuffle seed (a hash of block
    data) are threaded into each operation as explicit parameters.
  * The reentrancy guard `_locked` is omitted: every modelled call is a
    single atomic transition, so the guard is always free at entry.
-/

namespace Blackjack

inductive TableStatus
  | Waiting
  | Active
  | Closed
deriving DecidableEq, Repr

inductive GamePhase
  | WaitingForPlayers
  | Dealing
  | PlayerTurns
  | DealerTurn
  | Showdown
  | Completed
deriving DecidableEq, Repr

inductive Outcome
  | Lose
  | Win
  | Push
  | Blackjack
deriving DecidableEq, Repr

structure Card where
  rank : Nat
  suit : Nat
deriving DecidableEq, Repr

/-- `_handValueWithSoftFlag`: aces count 1 first, J/Q/K (and 10) count 10,
other ranks count face value; then one ace is promoted to 11 when that
keeps the total at or below 21, setting the soft flag. -/
def handValueWithSoftFlag (cards : List Card) : Nat × Bool :=
  let total : Nat := (cards.map fun c =>
    if c.rank = 14 then 1 else if 10 < c.rank then 10 else c.rank).sum
  let aces : Nat := cards.countP fun c => c.rank == 14
  if 0 < aces ∧ total + 10 ≤ 21 then (total + 10, true) else (total, false)

/-- `_calculateHandValue`. -/
def calculateHandValue (cards : List Card) : Nat :=
  (handValueWithSoftFlag cards).1

/-- `_isBusted`. -/
def isBusted (cards : List Card) : Bool :=
  decide (21 < calculateHandValue cards)

/-- `_isBlackjack`: exactly two cards totalling 21, one an ace, one
ten-valued (rank 10..13). -/
def isBlackjack (cards : List Card) : Bool :=
  if cards.length ≠ 2 then false
  else if calculateHandValue cards ≠ 21 then false
  else (cards.any fun c => c.rank == 14) &&
       (cards.any fun c => decide (10 ≤ c.rank) && decide (c.rank ≤ 13))

/-- Economy constants: 1 ETH = 100,000,000 chips. -/
def CHIPS_PER_ETH : Nat := 100000000

def WEI_PER_CHIP : Nat := 10 ^ 18 / CHIPS_PER_ETH

def UINT256_MOD : Nat := 2 ^ 256

def TURN_TIMEOUT : Nat := 60

def MAX_TABLES : Nat := 100

def MAX_PLAYERS : Nat := 4

/-- `ethToChips`: truncating division. -/
def ethToChips (weiAmount : Nat) : Nat := weiAmount / WEI_PER_CHIP

/-- `chipsToWei`; the multiplication reverts on uint256 overflow, modelled
as `none`. -/
def chipsToWei (chipAmount : Nat) : Option Nat :=
  if chipAmount * WEI_PER_CHIP < UINT256_MOD then some (chipAmount * WEI_PER_CHIP)
  else none

/-- Spec-side card value (claim C6's words): ranks 2..10 at face value,
J/Q/K (11..13) as 10, every ace as 1. -/
def specCardValue (r : Nat) : Nat :=
  if r = 14 then 1 else if 11 ≤ r ∧ r ≤ 13 then 10 else r

/-- Spec-side hand value (claim C6's words): sum all cards with aces as 1,
then add 10 for exactly one ace when and only when that keeps the total at
or below 21. -/
def specHandValue (cards : List Card) : Nat :=
  let base := (cards.map fun c => specCardValue c.rank).sum
  if (cards.any fun c => c.rank == 14) = true ∧ base + 10 ≤ 21 then base + 10
  else base

/-- `dealerShouldDraw`: the guard of the dealer draw loop in
`_startDealerTurn`, written as the conjunction of the loop's three break
conditions (busted; 18..21; hard 17). -/
def dealerShouldDraw (cards : List Card) : Bool :=
  let r := handValueWithSoftFlag cards
  if 21 < r.1 then false
  else if 17 < r.1 then false
  else if r.1 = 17 ∧ r.2 = false then false
  else true

/-- The deck is the uint8[52] array `deck`, modelled as a function from
position (0..51) to card index; positions at or above 52 are never read
in reachable states.  Swap of two positions (the tuple-swap assignment
in `_shuffleDeck`). -/
def swapFn (f : Nat → Nat) (i j : Nat) : Nat → Nat :=
  fun k => if k = i then f j else if k = j then f i else f k

/-- The swap target `j = i + ((seed + i) % (52 - i))` of `_shuffleDeck`. -/
def shuffleIdx (seed i : Nat) : Nat := i + (seed + i) % (52 - i)

/-- The swap loop of `_shuffleDeck`, iterations i = 0..50 (second argument
is the number of iterations left). -/
def shuffleLoop (seed : Nat) : Nat → Nat → (Nat → Nat) → (Nat → Nat)
  | _, 0, f => f
  | i, n + 1, f => shuffleLoop seed (i + 1) n (swapFn f i (shuffleIdx seed i))

/-- `_shuffleDeck`: reinitialize positions 0..51 to card indices 1..52,
then run the 51 swap iterations.  The seed is
`keccak256(timestamp, prevrandao, sender, tableId)` in the contract; here
it is an arbitrary `Nat` parameter. -/
def shuffleDeck (seed : Nat) : Nat → Nat :=
  shuffleLoop seed 0 51 (fun i => i + 1)

/-- The multiset of card indices held in deck positions 0..51. -/
def deckMultiset (f : Nat → Nat) : Multiset Nat :=
  (Multiset.range 52).map f

/-- Position permutation underlying a single swap. -/
def swapNat (i j : Nat) : Nat → Nat :=
  fun k => if k = i then j else if k = j then i else k

structure Player where
  addr : Nat
  chips : Nat
  bet : Nat
  cards : List Card
  isActive : Bool
  hasActed : Bool
deriving Repr

structure Dealer where
  cards : List Card
  hasFinished : Bool
deriving Repr

structure PlayerResult where
  addr : Nat
  bet : Nat
  total : Nat
  outcome : Outcome
  payout : Nat
  cards : List Card
deriving Repr

structure HandResult where
  dealerCards : List Card
  dealerTotal : Nat
  dealerBusted : Bool
  results : List PlayerResult
  pot : Nat
  timestamp : Nat
deriving Repr

structure Table where
  id : Nat
  status : TableStatus
  minBuyIn : Nat
  maxBuyIn : Nat
  deck : Nat → Nat
  deckIndex : Nat
  phase : GamePhase
  players : List Player
  dealer : Dealer
  lastActivityTimestamp : Nat
  lastHandResult : HandResult
  hasPendingResult : Bool
  nextHandUnlockTime : Nat

/-- Write through the first player with the given address (the contract
always locates players by a first-match scan over `t.players`). -/
def updateFirstPlayer (ps : List Player) (a : Nat) (f : Player → Player) : List Player :=
  match ps with
  | [] => []
  | p :: rest => if p.addr = a then f p :: rest else p :: updateFirstPlayer rest a f

/-- The shift-and-pop removal in `leaveTable`/`cashOut`: delete the first
player with the given address, keeping the order of the rest. -/
def removeFirstPlayer (ps : List Player) (a : Nat) : List Player :=
  match ps with
  | [] => []
  | p :: rest => if p.addr = a then rest else p :: removeFirstPlayer rest a

/-- `_getPlayerIndex` succeeds iff some player carries the address. -/
def findPlayer (ps : List Player) (a : Nat) : Option Player :=
  ps.find? fun p => p.addr == a

/-- Write through the player at a fixed seat index (the indexed updates in
`_startNewHand` and `forceAdvanceOnTimeout`). -/
def modifyPlayerAt (ps : List Player) (i : Nat) (f : Player → Player) : List Player :=
  match ps, i with
  | [], _ => []
  | p :: rest, 0 => f p :: rest
  | p :: rest, n + 1 => p :: modifyPlayerAt rest n f

/-- `_cardFromIndex`: suit = (index-1)/13, rank = (index-1)%13 + 2.  The
subtraction is Nat (truncating) subtraction; index 0 never reaches this
function in a reachable state because cards are only drawn from shuffled
decks, whose entries are 1..52. -/
def cardFromIndex (index : Nat) : Card :=
  ⟨(index - 1) % 13 + 2, (index - 1) / 13⟩

/-- `_ensureCardsAvailable`: when fewer cards remain than the draw needs,
reset the cursor to 0 and reshuffle first. -/
def ensureCardsAvailable (seed : Nat) (t : Table) (need : Nat) : Table :=
  if 52 - t.deckIndex < need then
    { t with deckIndex := 0, deck := shuffleDeck seed }
  else t

/-- `_dealCardToDealer` (encrypted mirrors omitted). -/
def dealCardToDealer (seed : Nat) (t : Table) : Table :=
  let t1 := ensureCardsAvailable seed t 1
  let c := cardFromIndex (t1.deck t1.deckIndex)
  let t2 := { t1 with deckIndex := t1.deckIndex + 1 }
  { t2 with dealer := { t2.dealer with cards := t2.dealer.cards ++ [c] } }

/-- `_dealCardToPlayer` (encrypted mirrors and ACL grants omitted): the
card goes to the first player whose address matches. -/
def dealCardToPlayer (seed : Nat) (t : Table) (a : Nat) : Table :=
  let t1 := ensureCardsAvailable seed t 1
  let c := cardFromIndex (t1.deck t1.deckIndex)
  let t2 := { t1 with deckIndex := t1.deckIndex + 1 }
  let pushCard := fun p : Player => { p with cards := p.cards ++ [c] }
  { t2 with players := updateFirstPlayer t2.players a pushCard }

/-- `_isMyTurnInternal`: the actor on turn is the first seated player that
is active and has not yet acted (the source's inner re-scan for an earlier
active-unacted seat is vacuous for the first match). -/
def isMyTurnInternal (t : Table) (who : Nat) : Bool :=
  if t.phase ≠ GamePhase.PlayerTurns then false
  else
    match t.players.find? (fun p => p.isActive && !p.hasActed) with
    | some p => p.addr == who
    | none => false

/-- `_resetHand`. -/
def resetHand (now : Nat) (t : Table) : Table :=
  { t with
    phase := GamePhase.WaitingForPlayers,
    players := t.players.map fun p =>
      { p with cards := [], isActive := false, hasActed := false, bet := 0 },
    dealer := { cards := [], hasFinished := false },
    lastActivityTimestamp := now }

/-- The per-player settlement loop of `_storeAndSettle`: inactive players
are skipped entirely; each active player is settled against the dealer and
paid out of the bank, which fails (reverts) if the bank cannot cover a
payout. -/
def settleLoop (dealerValue : Nat) (dealerBusted : Bool) :
    List Player → Nat → Option (List Player × Nat × List PlayerResult)
  | [], bank => some ([], bank, [])
  | p :: rest, bank =>
    if p.isActive = false then
      match settleLoop dealerValue dealerBusted rest bank with
      | none => none
      | some (ps, b, rs) => some (p :: ps, b, rs)
    else
      let pv := calculateHandValue p.cards
      let bj := isBlackjack p.cards
      if 21 < pv then
        match settleLoop dealerValue dealerBusted rest bank with
        | none => none
        | some (ps, b, rs) =>
          some (p :: ps, b, ⟨p.addr, p.bet, pv, Outcome.Lose, 0, p.cards⟩ :: rs)
      else if dealerBusted = true ∨ dealerValue < pv then
        let payout := if bj then p.bet + p.bet * 3 / 2 else p.bet * 2
        if bank < payout then none
        else
          match settleLoop dealerValue dealerBusted rest (bank - payout) with
          | none => none
          | some (ps, b, rs) =>
            some ({ p with chips := p.chips + payout } :: ps, b,
              ⟨p.addr, p.bet, pv, if bj then Outcome.Blackjack else Outcome.Win,
                payout, p.cards⟩ :: rs)
      else if pv = dealerValue then
        if bank < p.bet then none
        else
          match settleLoop dealerValue dealerBusted rest (bank - p.bet) with
          | none => none
          | some (ps, b, rs) =>
            some ({ p with chips := p.chips + p.bet } :: ps, b,
              ⟨p.addr, p.bet, pv, Outcome.Push, p.bet, p.cards⟩ :: rs)
      else
        match settleLoop dealerValue dealerBusted rest bank with
        | none => none
        | some (ps, b, rs) =>
          some (p :: ps, b, ⟨p.addr, p.bet, pv, Outcome.Lose, 0, p.cards⟩ :: rs)

/-- The pot collected at the start of `_storeAndSettle`: sum of the bets
of the active players. -/
def activeBetSum (ps : List Player) : Nat :=
  ((ps.filter fun p => p.isActive).map Player.bet).sum

/-- `_storeAndSettle`: collect the pot into the bank, settle every active
player, persist the hand result, pass through Showdown and immediately
reset the table for the next hand. -/
def storeAndSettle (now : Nat) (t : Table) (bank : Nat) : Option (Table × Nat) :=
  let dealerValue := calculateHandValue t.dealer.cards
  let dealerBusted : Bool := decide (21 < dealerValue)
  let collected := activeBetSum t.players
  match settleLoop dealerValue dealerBusted t.players (bank + collected) with
  | none => none
  | some (ps, bank2, results) =>
    let t1 := { t with players := ps }
    let t2 := { t1 with
      lastHandResult := {
        dealerCards := t1.dealer.cards
        dealerTotal := dealerValue
        dealerBusted := dealerBusted
        results := results
        pot := collected
        timestamp := now },
      phase := GamePhase.Showdown }
    some (resetHand now t2, bank2)

/-- The dealer draw loop of `_startDealerTurn`.  Each drawn card raises
the ace-low base total by at least 1 and the loop only continues while the
total is at most 17, so no run ever needs more than 18 iterations; the
fuel of 32 supplied by `startDealerTurn` is never exhausted. -/
def dealerLoop (seed : Nat) : Nat → Table → Table
  | 0, t => t
  | fuel + 1, t =>
    if dealerShouldDraw t.dealer.cards then
      dealerLoop seed fuel (dealCardToDealer seed t)
    else t

/-- `_startDealerTurn`: move to DealerTurn, skip drawing when no active
player remains, otherwise draw to hard 17+, then settle. -/
def startDealerTurn (seed now : Nat) (t : Table) (bank : Nat) : Option (Table × Nat) :=
  let t1 := { t with phase := GamePhase.DealerTurn }
  if (t1.players.any fun p => p.isActive) = false then
    storeAndSettle now { t1 with dealer := { t1.dealer with hasFinished := true } } bank
  else
    let t2 := dealerLoop seed 32 t1
    storeAndSettle now { t2 with dealer := { t2.dealer with hasFinished := true } } bank

/-- `_advanceToNextPlayer`: if any active player still has to act, do
nothing; otherwise start the dealer turn. -/
def advanceToNextPlayer (seed now : Nat) (t : Table) (bank : Nat) : Option (Table × Nat) :=
  if t.players.any fun p => p.isActive && !p.hasActed then some (t, bank)
  else startDealerTurn seed now t bank

/-- `_checkForNaturalBlackjacks`: mark every active natural-blackjack
holder as acted, and short-circuit to the dealer turn when the dealer has
blackjack or every active player does. -/
def checkForNaturalBlackjacks (seed now : Nat) (t : Table) (bank : Nat) :
    Option (Table × Nat) :=
  let dealerBJ := isBlackjack t.dealer.cards
  let anyPlayerBJ := t.players.any fun p => p.isActive && isBlackjack p.cards
  let anyPlayerNeedsAct := t.players.any fun p => p.isActive && !(isBlackjack p.cards)
  let t1 := { t with players := t.players.map fun p =>
    if p.isActive && isBlackjack p.cards then { p with hasActed := true } else p }
  if dealerBJ || (anyPlayerBJ && !anyPlayerNeedsAct) then startDealerTurn seed now t1 bank
  else some (t1, bank)

/-- The player loop of `_startNewHand`: bettors get their hand cleared and
two fresh cards; everyone else is deactivated and marked acted with
cleared cards (their bet field is untouched).  The fuel is the player
count, fixed before the loop. -/
def startNewHandDeal (seed : Nat) : Nat → Nat → Table → Table
  | 0, _, t => t
  | fuel + 1, i, t =>
    match t.players[i]? with
    | none => t
    | some p =>
      let clearHand := fun q : Player => { q with cards := [], hasActed := false }
      let deactivate := fun q : Player =>
        { q with isActive := false, hasActed := true, cards := [] }
      let t1 :=
        if 0 < p.bet ∧ p.isActive = true then
          let ta := { t with players := modifyPlayerAt t.players i clearHand }
          dealCardToPlayer seed (dealCardToPlayer seed ta p.addr) p.addr
        else
          { t with players := modifyPlayerAt t.players i deactivate }
      startNewHandDeal seed fuel (i + 1) t1

/-- `_startNewHand`: activate the table, shuffle, deal two cards to every
bettor and to the dealer, run the natural-blackjack check, then open the
player turns if still dealing. -/
def startNewHand (seed now : Nat) (t : Table) (bank : Nat) : Option (Table × Nat) :=
  let t1 := { t with
    status := TableStatus.Active
    phase := GamePhase.Dealing
    deckIndex := 0 }
  let t2 := { t1 with deck := shuffleDeck seed }
  let t3 := startNewHandDeal seed t2.players.length 0 t2
  let t4 := { t3 with dealer := { t3.dealer with cards := [] } }
  let t5 := dealCardToDealer seed (dealCardToDealer seed t4)
  match checkForNaturalBlackjacks seed now t5 bank with
  | none => none
  | some (t6, bank2) =>
    let t7 := if t6.phase = GamePhase.Dealing
      then { t6 with phase := GamePhase.PlayerTurns } else t6
    some ({ t7 with lastActivityTimestamp := now }, bank2)

/-- Association-list ledger for the contract's `mapping(address => uint)`
entries; lookups default to 0 and updates write through the first entry
with the key (appending when absent). -/
def getBal (m : List (Nat × Nat)) (a : Nat) : Nat :=
  match m with
  | [] => 0
  | (k, v) :: rest => if k = a then v else getBal rest a

def setBal (m : List (Nat × Nat)) (a v : Nat) : List (Nat × Nat) :=
  match m with
  | [] => [(a, v)]
  | (k, w) :: rest => if k = a then (a, v) :: rest else (k, w) :: setBal rest a v

def addBal (m : List (Nat × Nat)) (a d : Nat) : List (Nat × Nat) :=
  setBal m a (getBal m a + d)

def subBal (m : List (Nat × Nat)) (a d : Nat) : List (Nat × Nat) :=
  setBal m a (getBal m a - d)

/-- The contract's storage: tables, the three per-address mappings, the
bank float, owner/paused admin state, and the contract's ETH balance
(used by the withdraw/defund paths). -/
structure BJState where
  tables : List Table
  playerTableId : List (Nat × Nat)
  hasClaimedFreeChips : List Nat
  playerChips : List (Nat × Nat)
  bankChips : Nat
  owner : Nat
  paused : Bool
  ethBalance : Nat

/-- The constructor: empty storage, owner = deployer, bank seeded with
1,000,000,000 chips. -/
def initState (deployer : Nat) : BJState :=
  { tables := []
    playerTableId := []
    hasClaimedFreeChips := []
    playerChips := []
    bankChips := 1000000000
    owner := deployer
    paused := false
    ethBalance := 0 }

/-- `_getTable` bounds check: `tableId > 0 && tableId <= tables.length`;
tables are 1-indexed. -/
def getTable (s : BJState) (tableId : Nat) : Option Table :=
  if 0 < tableId ∧ tableId ≤ s.tables.length then s.tables[tableId - 1]? else none

def setTable (s : BJState) (tableId : Nat) (t : Table) : BJState :=
  { s with tables := s.tables.set (tableId - 1) t }

/-- `claimFreeChips`: one-time 10,000-chip promotional grant, minted into
the caller's wallet (the bank float is not debited). -/
def claimFreeChips (s : BJState) (sender : Nat) : Option BJState :=
  if s.paused then none
  else if sender ∈ s.hasClaimedFreeChips then none
  else if getBal s.playerTableId sender ≠ 0 then none
  else some { s with
    hasClaimedFreeChips := sender :: s.hasClaimedFreeChips
    playerChips := addBal s.playerChips sender 10000 }

/-- `buyChips`. -/
def buyChips (s : BJState) (sender msgValue : Nat) : Option BJState :=
  if s.paused then none
  else if msgValue = 0 then none
  else if getBal s.playerTableId sender ≠ 0 then none
  else some { s with
    ethBalance := s.ethBalance + msgValue
    playerChips := addBal s.playerChips sender (ethToChips msgValue) }

/-- `withdrawChips`. -/
def withdrawChips (s : BJState) (sender chipAmount : Nat) : Option BJState :=
  if s.paused then none
  else if chipAmount = 0 then none
  else if getBal s.playerChips sender < chipAmount then none
  else if getBal s.playerTableId sender ≠ 0 then none
  else
    match chipsToWei chipAmount with
    | none => none
    | some weiAmount =>
      if s.ethBalance < weiAmount then none
      else some { s with
        playerChips := subBal s.playerChips sender chipAmount
        ethBalance := s.ethBalance - weiAmount }

/-- `topUpTableChips`. -/
def topUpTableChips (s : BJState) (sender tableId amount now : Nat) : Option BJState :=
  if s.paused then none
  else if ¬(0 < tableId ∧ tableId ≤ s.tables.length) then none
  else if getBal s.playerTableId sender ≠ tableId then none
  else if amount = 0 then none
  else
    match getTable s tableId with
    | none => none
    | some t =>
      if t.phase ≠ GamePhase.WaitingForPlayers then none
      else if getBal s.playerChips sender < amount then none
      else if (findPlayer t.players sender).isNone then none
      else
        let addChips := fun p : Player => { p with chips := p.chips + amount }
        let t1 := { t with
          players := updateFirstPlayer t.players sender addChips
          lastActivityTimestamp := now }
        some (setTable { s with playerChips := subBal s.playerChips sender amount }
          tableId t1)

/-- `fundBank` (owner only; not pause-gated in the source). -/
def fundBank (s : BJState) (sender msgValue : Nat) : Option BJState :=
  if sender ≠ s.owner then none
  else if msgValue = 0 then none
  else some { s with
    ethBalance := s.ethBalance + msgValue
    bankChips := s.bankChips + ethToChips msgValue }

/-- `defundBank` (owner only). -/
def defundBank (s : BJState) (sender chipAmount : Nat) : Option BJState :=
  if sender ≠ s.owner then none
  else if ¬(0 < chipAmount ∧ chipAmount ≤ s.bankChips) then none
  else
    match chipsToWei chipAmount with
    | none => none
    | some weiAmount =>
      if s.ethBalance < weiAmount then none
      else some { s with
        bankChips := s.bankChips - chipAmount
        ethBalance := s.ethBalance - weiAmount }

def emptyHandResult : HandResult :=
  { dealerCards := []
    dealerTotal := 0
    dealerBusted := false
    results := []
    pot := 0
    timestamp := 0 }

/-- `createTable`: a fresh Waiting table in phase WaitingForPlayers; the
deck array is the Solidity zero-initialised uint8[52]. -/
def createTable (s : BJState) (minB maxB now : Nat) : Option BJState :=
  if s.paused then none
  else if MAX_TABLES ≤ s.tables.length then none
  else if ¬(0 < minB ∧ minB ≤ maxB) then none
  else
    let t : Table := {
      id := s.tables.length + 1
      status := TableStatus.Waiting
      minBuyIn := minB
      maxBuyIn := maxB
      deck := fun _ => 0
      deckIndex := 0
      phase := GamePhase.WaitingForPlayers
      players := []
      dealer := { cards := [], hasFinished := false }
      lastActivityTimestamp := now
      lastHandResult := emptyHandResult
      hasPendingResult := false
      nextHandUnlockTime := 0 }
    some { s with tables := s.tables ++ [t] }

/-- `joinTable`: debit the wallet, seat the player (inactive, acted, no
bet), and flip the table to Active at two or more seats. -/
def joinTable (s : BJState) (sender tableId buyInAmount now : Nat) : Option BJState :=
  if s.paused then none
  else
    match getTable s tableId with
    | none => none
    | some t =>
      if MAX_PLAYERS ≤ t.players.length then none
      else if getBal s.playerTableId sender ≠ 0 then none
      else if ¬(t.minBuyIn ≤ buyInAmount ∧ buyInAmount ≤ t.maxBuyIn) then none
      else if getBal s.playerChips sender < buyInAmount then none
      else
        let p : Player := {
          addr := sender
          chips := buyInAmount
          bet := 0
          cards := []
          isActive := false
          hasActed := true }
        let t1 := { t with
          players := t.players ++ [p]
          lastActivityTimestamp := now }
        let t2 := if 2 ≤ t1.players.length ∧ t1.status = TableStatus.Waiting
          then { t1 with status := TableStatus.Active } else t1
        some (setTable { s with
          playerChips := subBal s.playerChips sender buyInAmount
          playerTableId := setBal s.playerTableId sender tableId } tableId t2)

/-- `leaveTable` (not pause-gated in the source): a mid-hand leave forfeits
the bet and returns the remaining stack without touching table status or
phase; a between-hands leave additionally reverts the table to
Waiting/WaitingForPlayers when fewer than 2 players remain. -/
def leaveTable (s : BJState) (sender tableId now : Nat) : Option BJState :=
  if ¬(0 < tableId ∧ tableId ≤ s.tables.length) then none
  else if getBal s.playerTableId sender ≠ tableId then none
  else
    match getTable s tableId with
    | none => none
    | some t =>
      match findPlayer t.players sender with
      | none => none
      | some p =>
        if t.phase ≠ GamePhase.WaitingForPlayers then
          let t1 := { t with
            players := removeFirstPlayer t.players sender
            lastActivityTimestamp := now }
          some (setTable { s with
            playerChips := addBal s.playerChips sender p.chips
            playerTableId := setBal s.playerTableId sender 0 } tableId t1)
        else
          let t1 := { t with players := removeFirstPlayer t.players sender }
          let t2 := if t1.players.length < 2 then
            { t1 with
              status := TableStatus.Waiting
              phase := GamePhase.WaitingForPlayers } else t1
          some (setTable { s with
            playerChips := addBal s.playerChips sender p.chips
            playerTableId := setBal s.playerTableId sender 0 } tableId
            { t2 with lastActivityTimestamp := now })

/-- `cashOut` (not pause-gated in the source): only between hands. -/
def cashOut (s : BJState) (sender tableId now : Nat) : Option BJState :=
  if ¬(0 < tableId ∧ tableId ≤ s.tables.length) then none
  else if getBal s.playerTableId sender ≠ tableId then none
  else
    match getTable s tableId with
    | none => none
    | some t =>
      if t.phase ≠ GamePhase.WaitingForPlayers then none
      else
        match findPlayer t.players sender with
        | none => none
        | some p =>
          if p.chips = 0 then none
          else
            let t1 := { t with players := removeFirstPlayer t.players sender }
            let t2 := if t1.players.length < 2 then
              { t1 with
                status := TableStatus.Waiting
                phase := GamePhase.WaitingForPlayers } else t1
            some (setTable { s with
              playerChips := addBal s.playerChips sender p.chips
              playerTableId := setBal s.playerTableId sender 0 } tableId
              { t2 with lastActivityTimestamp := now })

/-- The table-level body of `placeBet` (everything after the
`atActiveTable` modifier): overwrite the caller's bet (the bet field is
assigned, not accumulated, and the chips debited again on a repeated
bet), then start the hand when at least one active bettor exists and
nobody eligible is still to bet. -/
def placeBetAction (seed now : Nat) (t : Table) (sender betAmount bank : Nat) :
    Option (Table × Nat) :=
  if t.phase ≠ GamePhase.WaitingForPlayers then none
  else
    match findPlayer t.players sender with
    | none => none
    | some p =>
      if ¬(t.minBuyIn ≤ betAmount ∧ betAmount ≤ p.chips) then none
      else
        let placeIt := fun q : Player =>
          { q with
            bet := betAmount
            chips := q.chips - betAmount
            isActive := true
            hasActed := true }
        let t1 : Table := { t with players := updateFirstPlayer t.players sender placeIt }
        let activeBettors : Nat := t1.players.countP fun q =>
          q.isActive && decide (0 < q.bet)
        let playersEligibleNoBet : Nat := t1.players.countP fun q =>
          !(q.isActive && decide (0 < q.bet)) &&
            decide (t.minBuyIn ≤ q.chips) && decide (q.bet = 0)
        if 0 < activeBettors ∧ (playersEligibleNoBet = 0 ∨ t1.players.length = 1) then
          startNewHand seed now t1 bank
        else some (t1, bank)

/-- `placeBet` (not pause-gated in the source). -/
def placeBet (s : BJState) (sender tableId betAmount now seed : Nat) : Option BJState :=
  if ¬(0 < tableId ∧ tableId ≤ s.tables.length) then none
  else if getBal s.playerTableId sender ≠ tableId then none
  else
    match getTable s tableId with
    | none => none
    | some t =>
      match placeBetAction seed now t sender betAmount s.bankChips with
      | none => none
      | some (t2, bank2) =>
        some (setTable { s with bankChips := bank2 } tableId
          { t2 with lastActivityTimestamp := now })

/-- The table-level body of `hit`. -/
def hitAction (seed now : Nat) (t : Table) (sender bank : Nat) :
    Option (Table × Nat) :=
  if t.status ≠ TableStatus.Active then none
  else if t.phase ≠ GamePhase.PlayerTurns then none
  else if isMyTurnInternal t sender = false then none
  else
    let t1 := dealCardToPlayer seed t sender
    match findPlayer t1.players sender with
    | none => none
    | some p1 =>
      if isBusted p1.cards then
        let bust := fun q : Player => { q with isActive := false, hasActed := true }
        let t2 := { t1 with players := updateFirstPlayer t1.players sender bust }
        advanceToNextPlayer seed now t2 bank
      else some (t1, bank)

/-- `hit` (not pause-gated in the source). -/
def hit (s : BJState) (sender tableId now seed : Nat) : Option BJState :=
  if ¬(0 < tableId ∧ tableId ≤ s.tables.length) then none
  else if getBal s.playerTableId sender ≠ tableId then none
  else
    match getTable s tableId with
    | none => none
    | some t =>
      match hitAction seed now t sender s.bankChips with
      | none => none
      | some (t2, bank2) =>
        some (setTable { s with bankChips := bank2 } tableId
          { t2 with lastActivityTimestamp := now })

/-- The table-level body of `stand`. -/
def standAction (seed now : Nat) (t : Table) (sender bank : Nat) :
    Option (Table × Nat) :=
  if t.status ≠ TableStatus.Active then none
  else if t.phase ≠ GamePhase.PlayerTurns then none
  else if isMyTurnInternal t sender = false then none
  else if (findPlayer t.players sender).isNone then none
  else
    let act := fun q : Player => { q with hasActed := true }
    let t1 := { t with players := updateFirstPlayer t.players sender act }
    advanceToNextPlayer seed now t1 bank

/-- `stand` (not pause-gated in the source). -/
def stand (s : BJState) (sender tableId now seed : Nat) : Option BJState :=
  if ¬(0 < tableId ∧ tableId ≤ s.tables.length) then none
  else if getBal s.playerTableId sender ≠ tableId then none
  else
    match getTable s tableId with
    | none => none
    | some t =>
      match standAction seed now t sender s.bankChips with
      | none => none
      | some (t2, bank2) =>
        some (setTable { s with bankChips := bank2 } tableId
          { t2 with lastActivityTimestamp := now })

/-- The table-level body of `doubleDown`. -/
def doubleDownAction (seed now : Nat) (t : Table) (sender bank : Nat) :
    Option (Table × Nat) :=
  if t.status ≠ TableStatus.Active then none
  else if t.phase ≠ GamePhase.PlayerTurns then none
  else if isMyTurnInternal t sender = false then none
  else
    match findPlayer t.players sender with
    | none => none
    | some p =>
      if p.cards.length ≠ 2 then none
      else if p.chips < p.bet then none
      else
        let dd := fun q : Player =>
          { q with
            chips := q.chips - q.bet
            bet := q.bet * 2
            hasActed := true }
        let t1 := { t with players := updateFirstPlayer t.players sender dd }
        let t2 := dealCardToPlayer seed t1 sender
        match findPlayer t2.players sender with
        | none => none
        | some p2 =>
          let deact := fun q : Player => { q with isActive := false }
          let t3 := if isBusted p2.cards then
            { t2 with players := updateFirstPlayer t2.players sender deact }
            else t2
          advanceToNextPlayer seed now t3 bank

/-- `doubleDown` (not pause-gated in the source). -/
def doubleDown (s : BJState) (sender tableId now seed : Nat) : Option BJState :=
  if ¬(0 < tableId ∧ tableId ≤ s.tables.length) then none
  else if getBal s.playerTableId sender ≠ tableId then none
  else
    match getTable s tableId with
    | none => none
    | some t =>
      match doubleDownAction seed now t sender s.bankChips with
      | none => none
      | some (t2, bank2) =>
        some (setTable { s with bankChips := bank2 } tableId
          { t2 with lastActivityTimestamp := now })

/-- The table-level body of `forceAdvanceOnTimeout`: after the timeout,
mark the first active-unacted player as acted (auto-stand) and advance
once; when nobody is awaiting action, force the dealer turn. -/
def forceAdvanceAction (seed now : Nat) (t : Table) (bank : Nat) :
    Option (Table × Nat) :=
  if t.phase ≠ GamePhase.PlayerTurns then none
  else if now < t.lastActivityTimestamp + TURN_TIMEOUT then none
  else
    match t.players.findIdx? (fun p => p.isActive && !p.hasActed) with
    | some i =>
      let act := fun q : Player => { q with hasActed := true }
      let t1 := { t with players := modifyPlayerAt t.players i act }
      advanceToNextPlayer seed now t1 bank
    | none => startDealerTurn seed now t bank

/-- `forceAdvanceOnTimeout` (permissionless, not pause-gated). -/
def forceAdvanceOnTimeout (s : BJState) (tableId now seed : Nat) : Option BJState :=
  if ¬(0 < tableId ∧ tableId ≤ s.tables.length) then none
  else
    match getTable s tableId with
    | none => none
    | some t =>
      match forceAdvanceAction seed now t s.bankChips with
      | none => none
      | some (t2, bank2) =>
        some (setTable { s with bankChips := bank2 } tableId
          { t2 with lastActivityTimestamp := now })

/-- `pause` (owner only). -/
def pause (s : BJState) (sender : Nat) : Option BJState :=
  if sender ≠ s.owner then none else some { s with paused := true }

/-- `unpause` (owner only). -/
def unpause (s : BJState) (sender : Nat) : Option BJState :=
  if sender ≠ s.owner then none else some { s with paused := false }

/-- `transferOwnership` (owner only). -/
def transferOwnership (s : BJState) (sender newOwner : Nat) : Option BJState :=
  if sender ≠ s.owner then none
  else if newOwner = 0 then none
  else some { s with owner := newOwner }

/-- One external call to the contract, with its environment inputs
(`now` = block.timestamp, `seed` = the shuffle seed hash, `msgValue`). -/
inductive Op
  | claimFreeChips (sender : Nat)
  | buyChips (sender msgValue : Nat)
  | withdrawChips (sender chipAmount : Nat)
  | topUpTableChips (sender tableId amount now : Nat)
  | fundBank (sender msgValue : Nat)
  | defundBank (sender chipAmount : Nat)
  | createTable (minB maxB now : Nat)
  | joinTable (sender tableId buyIn now : Nat)
  | leaveTable (sender tableId now : Nat)
  | cashOut (sender tableId now : Nat)
  | placeBet (sender tableId amount now seed : Nat)
  | hit (sender tableId now seed : Nat)
  | stand (sender tableId now seed : Nat)
  | doubleDown (sender tableId now seed : Nat)
  | forceAdvanceOnTimeout (tableId now seed : Nat)
  | pause (sender : Nat)
  | unpause (sender : Nat)
  | transferOwnership (sender newOwner : Nat)

/-- The one-call transition relation of the contract. -/
def step (s : BJState) : Op → Option BJState
  | .claimFreeChips a => claimFreeChips s a
  | .buyChips a v => buyChips s a v
  | .withdrawChips a c => withdrawChips s a c
  | .topUpTableChips a tid amt now => topUpTableChips s a tid amt now
  | .fundBank a v => fundBank s a v
  | .defundBank a c => defundBank s a c
  | .createTable minB maxB now => createTable s minB maxB now
  | .joinTable a tid b now => joinTable s a tid b now
  | .leaveTable a tid now => leaveTable s a tid now
  | .cashOut a tid now => cashOut s a tid now
  | .placeBet a tid amt now seed => placeBet s a tid amt now seed
  | .hit a tid now seed => hit s a tid now seed
  | .stand a tid now seed => stand s a tid now seed
  | .doubleDown a tid now seed => doubleDown s a tid now seed
  | .forceAdvanceOnTimeout tid now seed => forceAdvanceOnTimeout s tid now seed
  | .pause a => pause s a
  | .unpause a => unpause s a
  | .transferOwnership a o => transferOwnership s a o

/-- States reachable from deployment by successful calls. -/
inductive Reachable (deployer : Nat) : BJState → Prop
  | init : Reachable deployer (initState deployer)
  | next {s s' : BJState} {op : Op} :
      Reachable deployer s → step s op = some s' → Reachable deployer s'

/-- Concrete example data: an Active table mid-hand (phase PlayerTurns)
with two seated bettors, used by several concrete evaluations below. -/
def exPlayer1 : Player :=
  { addr := 1, chips := 3000, bet := 2000, cards := [⟨14, 3⟩, ⟨13, 3⟩],
    isActive := true, hasActed := true }

def exPlayer2 : Player :=
  { addr := 2, chips := 4000, bet := 1000, cards := [⟨9, 0⟩, ⟨7, 1⟩],
    isActive := true, hasActed := false }

def exTableMidHand : Table :=
  { id := 1
    status := TableStatus.Active
    minBuyIn := 1000
    maxBuyIn := 10000
    deck := fun i => i + 1
    deckIndex := 6
    phase := GamePhase.PlayerTurns
    players := [exPlayer1, exPlayer2]
    dealer := { cards := [⟨10, 0⟩, ⟨9, 1⟩], hasFinished := false }
    lastActivityTimestamp := 100
    lastHandResult := emptyHandResult
    hasPendingResult := false
    nextHandUnlockTime := 0 }

def exStateMidHand : BJState :=
  { tables := [exTableMidHand]
    playerTableId := [(1, 1), (2, 1)]
    hasClaimedFreeChips := []
    playerChips := [(1, 500)]
    bankChips := 1000000000
    owner := 99
    paused := false
    ethBalance := 0 }

/-- A table in PlayerTurns with both seated players still to act. -/
def exTableTwoStalled : Table :=
  { exTableMidHand with
    players := [{ exPlayer1 with hasActed := false }, exPlayer2] }

def exStateTwoStalled : BJState :=
  { exStateMidHand with tables := [exTableTwoStalled] }

/-- A table in PlayerTurns where every active player has already acted
(nobody is awaiting action). -/
def exTableNoStalled : Table :=
  { exTableMidHand with
    players := [exPlayer1, { exPlayer2 with hasActed := true }] }

def exStateNoStalled : BJState :=
  { exStateMidHand with tables := [exTableNoStalled] }

/-- A between-hands table with two seated players who have not bet. -/
def exWaiter1 : Player :=
  { addr := 1, chips := 5000, bet := 0, cards := [], isActive := false,
    hasActed := false }

def exWaiter2 : Player :=
  { addr := 2, chips := 5000, bet := 0, cards := [], isActive := false,
    hasActed := false }

def exTableWaiting : Table :=
  { exTableMidHand with
    phase := GamePhase.WaitingForPlayers
    players := [exWaiter1, exWaiter2] }

def exStatePausedWaiting : BJState :=
  { exStateMidHand with tables := [exTableWaiting], paused := true }

/-- Everything of the state except the `paused` flag. -/
def stateCore (s : BJState) :
    List Table × List (Nat × Nat) × List Nat × List (Nat × Nat) × Nat × Nat × Nat :=
  (s.tables, s.playerTableId, s.hasClaimedFreeChips, s.playerChips,
    s.bankChips, s.owner, s.ethBalance)

def setPaused (s : BJState) (b : Bool) : BJState := { s with paused := b }

/-- A table never shows the dead enum value Completed and never has a
pending result. -/
def tableOk (t : Table) : Bool :=
  decide (t.phase ≠ GamePhase.Completed) && !t.hasPendingResult

def tablesOk (s : BJState) : Bool := s.tables.all tableOk

/-- Total chips sitting in wallets (the values of the `playerChips`
mapping). -/
def walletTotal (m : List (Nat × Nat)) : Nat := (m.map Prod.snd).sum

/-- Total chips at a table: every seated player's stack plus placed bet. -/
def playersTotal (ps : List Player) : Nat := (ps.map fun p => p.chips + p.bet).sum

def betTotal (ps : List Player) : Nat := (ps.map Player.bet).sum

/-- The bets of the inactive players: the part of the pot that settlement
neither collects, refunds nor pays out. -/
def forfeitBetSum (ps : List Player) : Nat :=
  ((ps.filter fun p => !p.isActive).map Player.bet).sum

def tablesTotal (ts : List Table) : Nat := (ts.map fun t => playersTotal t.players).sum

/-- The quantity claim C1 says is conserved: wallet balances + table
stacks and bets + the bank float. -/
def chipSupply (s : BJState) : Nat :=
  walletTotal s.playerChips + tablesTotal s.tables + s.bankChips

/-- The exact amount a successful call adds to `chipSupply`: the two ETH
deposits add the converted amount, and `claimFreeChips` mints its
10,000-chip grant without debiting anything. -/
def opMint : Op → Nat
  | .claimFreeChips _ => 10000
  | .buyChips _ v => ethToChips v
  | .fundBank _ v => ethToChips v
  | _ => 0

/-- A betting-phase table where player 1 already has a 500-chip bet
standing and player 2 has not bet yet (so a further bet does not start
the hand). -/
def exRebetPlayer : Player :=
  { addr := 1, chips := 2500, bet := 500, cards := [], isActive := true,
    hasActed := true }

def exTableRebet : Table :=
  { exTableMidHand with
    phase := GamePhase.WaitingForPlayers
    players := [exRebetPlayer, exWaiter2] }

def exStateRebet : BJState :=
  { exStateMidHand with tables := [exTableRebet] }

theorem handValue_base_eq_spec_base (cards : List Card)
    (h : ∀ c ∈ cards, 2 ≤ c.rank ∧ c.rank ≤ 14) :
    (cards.map fun c =>
      if c.rank = 14 then 1 else if 10 < c.rank then 10 else c.rank).sum
    = (cards.map fun c => specCardValue c.rank).sum := by
  induction cards with
  | nil => rfl
  | cons c cs ih =>
    have hc := h c (by simp)
    have hcs : ∀ x ∈ cs, 2 ≤ x.rank ∧ x.rank ≤ 14 := fun x hx => h x (by simp [hx])
    simp only [List.map_cons, List.sum_cons, ih hcs]
    congr 1
    unfold specCardValue
    rcases hc with ⟨h2, h14⟩
    by_cases hA : c.rank = 14
    · simp [hA]
    · by_cases hJ : 10 < c.rank
      · have : 11 ≤ c.rank ∧ c.rank ≤ 13 := by omega
        simp [hA, hJ, this]
      · have : ¬(11 ≤ c.rank ∧ c.rank ≤ 13) := by omega
        simp [hA, hJ, this]

theorem countP_aces_pos_iff_any (cards : List Card) :
    (0 < cards.countP fun c => c.rank == 14) ↔
    (cards.any fun c => c.rank == 14) = true := by
  rw [List.countP_pos_iff, List.any_eq_true]

/-- C6: on any hand of valid cards (ranks 2..14), the implementation's
hand value agrees with the spec rule "2..10 face value, J/Q/K ten, aces
one, plus 10 for exactly one ace iff that keeps the total at or below 21",
and a hand is busted exactly when that value exceeds 21. -/
theorem c6_hand_value_and_bust_rule (cards : List Card)
    (h : ∀ c ∈ cards, 2 ≤ c.rank ∧ c.rank ≤ 14) :
    calculateHandValue cards = specHandValue cards ∧
    (isBusted cards = true ↔ 21 < specHandValue cards) := by
  have hbase := handValue_base_eq_spec_base cards h
  have hvalue : calculateHandValue cards = specHandValue cards := by
    unfold calculateHandValue handValueWithSoftFlag specHandValue
    simp only [hbase]
    by_cases hany : (cards.any fun c => c.rank == 14) = true
    · have hpos : 0 < cards.countP fun c => c.rank == 14 :=
        (countP_aces_pos_iff_any cards).2 hany
      by_cases hle : (cards.map fun c => specCardValue c.rank).sum + 10 ≤ 21
      · simp [hpos, hle, hany]
      · simp [hpos, hle, hany]
    · have hz : cards.countP (fun c => c.rank == 14) = 0 := by
        by_contra hne
        exact hany ((countP_aces_pos_iff_any cards).1 (Nat.pos_of_ne_zero hne))
      simp [hz, hany]
  refine ⟨hvalue, ?_⟩
  unfold isBusted
  rw [hvalue]
  simp

/-- Witness for C6 at a concrete hand: ace + king + nine is a hard 20
(the ace demoted to 1), not busted. -/
theorem c6_witness :
    calculateHandValue [⟨14, 0⟩, ⟨13, 1⟩, ⟨9, 2⟩] =
      specHandValue [⟨14, 0⟩, ⟨13, 1⟩, ⟨9, 2⟩] ∧
    (isBusted [⟨14, 0⟩, ⟨13, 1⟩, ⟨9, 2⟩] = true ↔
      21 < specHandValue [⟨14, 0⟩, ⟨13, 1⟩, ⟨9, 2⟩]) :=
  c6_hand_value_and_bust_rule [⟨14, 0⟩, ⟨13, 1⟩, ⟨9, 2⟩] (by decide)

/-- C5: the dealer draw-loop guard holds exactly when the hand total is at
most 21 and either below 17 or a soft 17 (hit-soft-17); equivalently the
dealer stops on hard 17, on 18..21, and on a bust. -/
theorem c5_dealer_hit_soft_17 (cards : List Card) :
    dealerShouldDraw cards = true ↔
    (calculateHandValue cards ≤ 21 ∧
      (calculateHandValue cards < 17 ∨
        (calculateHandValue cards = 17 ∧ (handValueWithSoftFlag cards).2 = true))) := by
  unfold dealerShouldDraw calculateHandValue
  rcases hr : handValueWithSoftFlag cards with ⟨v, s⟩
  simp only
  split_ifs with h1 h2 h3 <;> cases s <;> (try simp_all) <;> omega

/-- C10: the chip/wei conversion round-trips exactly on every chip amount
whose wei value fits in uint256, because WEI_PER_CHIP = 10^18 / 10^8 =
10^10 divides evenly; and ethToChips truncates (floor division). -/
theorem c10_conversion_roundtrip :
    (∀ c : Nat, c * WEI_PER_CHIP < UINT256_MOD →
      ∃ w, chipsToWei c = some w ∧ ethToChips w = c ∧ w = c * WEI_PER_CHIP) ∧
    WEI_PER_CHIP * CHIPS_PER_ETH = 10 ^ 18 ∧
    (∀ w : Nat, ethToChips w = w / WEI_PER_CHIP) := by
  refine ⟨?_, by decide, fun w => rfl⟩
  intro c hc
  refine ⟨c * WEI_PER_CHIP, ?_, ?_, rfl⟩
  · unfold chipsToWei
    simp [hc]
  · unfold ethToChips
    have hpos : 0 < WEI_PER_CHIP := by decide
    exact Nat.mul_div_cancel c hpos

/-- Witness for C10 at the concrete chip amount 12345. -/
theorem c10_witness :
    ∃ w, chipsToWei 12345 = some w ∧ ethToChips w = 12345 ∧
      w = 12345 * WEI_PER_CHIP :=
  (c10_conversion_roundtrip.1) 12345 (by decide)

theorem swapFn_eq_comp (f : Nat → Nat) (i j : Nat) :
    swapFn f i j = f ∘ swapNat i j := by
  funext k
  simp only [swapFn, swapNat, Function.comp]
  split_ifs <;> simp_all

theorem swapNat_involutive (i j : Nat) : ∀ k, swapNat i j (swapNat i j k) = k := by
  intro k
  simp only [swapNat]
  split_ifs <;> omega

theorem swapNat_injective (i j : Nat) : Function.Injective (swapNat i j) := by
  intro a b hab
  have := congrArg (swapNat i j) hab
  rwa [swapNat_involutive, swapNat_involutive] at this

theorem swapNat_lt (i j : Nat) (hi : i < 52) (hj : j < 52) :
    ∀ k, k < 52 → swapNat i j k < 52 := by
  intro k hk
  simp only [swapNat]
  split_ifs <;> omega

theorem range_map_swapNat (i j : Nat) (hi : i < 52) (hj : j < 52) :
    (Multiset.range 52).map (swapNat i j) = Multiset.range 52 := by
  ext c
  by_cases hc : c < 52
  · have h1 : swapNat i j c < 52 := swapNat_lt i j hi hj c hc
    have h2 : swapNat i j (swapNat i j c) = c := swapNat_involutive i j c
    have hnodup : (Multiset.range 52).Nodup := Multiset.nodup_range 52
    have hmem : swapNat i j c ∈ Multiset.range 52 := Multiset.mem_range.2 h1
    have hcmem : c ∈ Multiset.range 52 := Multiset.mem_range.2 hc
    calc ((Multiset.range 52).map (swapNat i j)).count c
        = ((Multiset.range 52).map (swapNat i j)).count (swapNat i j (swapNat i j c)) := by
          rw [h2]
      _ = (Multiset.range 52).count (swapNat i j c) :=
          Multiset.count_map_eq_count' _ _ (swapNat_injective i j) _
      _ = 1 := Multiset.count_eq_one_of_mem hnodup hmem
      _ = (Multiset.range 52).count c := (Multiset.count_eq_one_of_mem hnodup hcmem).symm
  · have h1 : c ∉ (Multiset.range 52).map (swapNat i j) := by
      intro hmem
      rcases Multiset.mem_map.1 hmem with ⟨k, hk, hkc⟩
      have : k < 52 := Multiset.mem_range.1 hk
      have : swapNat i j k < 52 := swapNat_lt i j hi hj k this
      omega
    have h2 : c ∉ Multiset.range 52 := fun hmem => hc (Multiset.mem_range.1 hmem)
    rw [Multiset.count_eq_zero_of_not_mem h1, Multiset.count_eq_zero_of_not_mem h2]

theorem deckMultiset_swapFn (f : Nat → Nat) (i j : Nat) (hi : i < 52) (hj : j < 52) :
    deckMultiset (swapFn f i j) = deckMultiset f := by
  unfold deckMultiset
  rw [swapFn_eq_comp]
  calc (Multiset.range 52).map (f ∘ swapNat i j)
      = ((Multiset.range 52).map (swapNat i j)).map f := by
        rw [Multiset.map_map]
    _ = (Multiset.range 52).map f := by rw [range_map_swapNat i j hi hj]

theorem shuffleIdx_lt (seed i : Nat) (hi : i < 52) : shuffleIdx seed i < 52 := by
  unfold shuffleIdx
  have h : (seed + i) % (52 - i) < 52 - i := Nat.mod_lt _ (by omega)
  omega

theorem shuffleLoop_deckMultiset (seed : Nat) :
    ∀ n i f, i + n ≤ 51 →
      deckMultiset (shuffleLoop seed i n f) = deckMultiset f := by
  intro n
  induction n with
  | zero => intro i f _; rfl
  | succ n ih =>
    intro i f hbound
    have hi : i < 52 := by omega
    rw [shuffleLoop, ih (i + 1) _ (by omega),
      deckMultiset_swapFn f i (shuffleIdx seed i) hi (shuffleIdx_lt seed i hi)]

theorem deckMultiset_init :
    ∀ c : Nat, (deckMultiset fun i => i + 1).count c =
      if 1 ≤ c ∧ c ≤ 52 then 1 else 0 := by
  intro c
  unfold deckMultiset
  cases c with
  | zero =>
    have h0 : (0 : Nat) ∉ (Multiset.range 52).map (fun i => i + 1) := by
      intro hmem
      rcases Multiset.mem_map.1 hmem with ⟨k, _, hk⟩
      simp at hk
    simp [Multiset.count_eq_zero_of_not_mem h0]
  | succ m =>
    have hinj : Function.Injective (fun i : Nat => i + 1) := fun a b h =>
      Nat.succ_injective h
    have := Multiset.count_map_eq_count' (fun i : Nat => i + 1) (Multiset.range 52) hinj m
    simp only at this
    rw [this]
    by_cases hm : m < 52
    · have hmem : m ∈ Multiset.range 52 := Multiset.mem_range.2 hm
      rw [Multiset.count_eq_one_of_mem (Multiset.nodup_range 52) hmem]
      split_ifs <;> omega
    · have hnmem : m ∉ Multiset.range 52 := fun h => hm (Multiset.mem_range.1 h)
      rw [Multiset.count_eq_zero_of_not_mem hnmem]
      split_ifs <;> omega

theorem shuffleDeck_counts (seed c : Nat) :
    (deckMultiset (shuffleDeck seed)).count c =
      if 1 ≤ c ∧ c ≤ 52 then 1 else 0 := by
  unfold shuffleDeck
  rw [shuffleLoop_deckMultiset seed 51 0 _ (by omega)]
  exact deckMultiset_init c

theorem getTable_bounds {s : BJState} {tid : Nat} {t : Table}
    (h : getTable s tid = some t) : 0 < tid ∧ tid ≤ s.tables.length := by
  unfold getTable at h
  by_cases hc : 0 < tid ∧ tid ≤ s.tables.length
  · exact hc
  · rw [if_neg hc] at h; cases h

theorem getTable_eq_elem {s : BJState} {tid : Nat} {t : Table}
    (h : getTable s tid = some t) : s.tables[tid - 1]? = some t := by
  unfold getTable at h
  by_cases hc : 0 < tid ∧ tid ≤ s.tables.length
  · rwa [if_pos hc] at h
  · rw [if_neg hc] at h; cases h

theorem getTable_setTable (s : BJState) (tid : Nat) (t : Table)
    (h1 : 0 < tid) (h2 : tid ≤ s.tables.length) :
    getTable (setTable s tid t) tid = some t := by
  unfold getTable setTable
  rw [if_pos (show 0 < tid ∧ tid ≤ (s.tables.set (tid - 1) t).length from
    ⟨h1, by simpa using h2⟩)]
  exact List.getElem?_set_eq_of_lt t (by omega)

theorem getBal_setBal_self (m : List (Nat × Nat)) (a v : Nat) :
    getBal (setBal m a v) a = v := by
  induction m with
  | nil => simp [setBal, getBal]
  | cons kv rest ih =>
    obtain ⟨k, w⟩ := kv
    by_cases hk : k = a
    · simp [setBal, getBal, hk]
    · simp [setBal, getBal, hk, ih]

/-- C3 counterexample: player 1 leaves `exTableMidHand` mid-hand; the
seated count drops to 1 (below 2), yet the table keeps status Active and
phase PlayerTurns — the claimed reversion to Waiting/WaitingForPlayers
does not happen on the mid-hand branch of `leaveTable`. -/
theorem c3_counterexample :
    (leaveTable exStateMidHand 1 1 200).isSome = true ∧
    ((leaveTable exStateMidHand 1 1 200).getD exStateMidHand).tables.all
      (fun t => decide (t.players.length < 2) &&
        !(decide (t.status = TableStatus.Waiting) &&
          decide (t.phase = GamePhase.WaitingForPlayers))) = true :=
  ⟨rfl, rfl⟩

/-- C3 (amended): a between-hands `leaveTable` or a `cashOut` that drops
the seated count below 2 reverts the table to Waiting/WaitingForPlayers;
a mid-hand `leaveTable` removes the player and returns the remaining
stack (forfeiting the bet) but leaves status and phase unchanged even
when the count drops below 2. -/
theorem c3_below_two_reverts_only_between_hands :
    (∀ s sender tableId now t s', getTable s tableId = some t →
      leaveTable s sender tableId now = some s' →
      ((t.phase = GamePhase.WaitingForPlayers →
        (removeFirstPlayer t.players sender).length < 2 →
        ∃ t', getTable s' tableId = some t' ∧
          t'.status = TableStatus.Waiting ∧
          t'.phase = GamePhase.WaitingForPlayers) ∧
       (t.phase ≠ GamePhase.WaitingForPlayers →
        ∃ t', getTable s' tableId = some t' ∧
          t'.status = t.status ∧ t'.phase = t.phase ∧
          t'.players = removeFirstPlayer t.players sender ∧
          (∀ p, findPlayer t.players sender = some p →
            getBal s'.playerChips sender = getBal s.playerChips sender + p.chips)))) ∧
    (∀ s sender tableId now t s', getTable s tableId = some t →
      cashOut s sender tableId now = some s' →
      (removeFirstPlayer t.players sender).length < 2 →
      ∃ t', getTable s' tableId = some t' ∧
        t'.status = TableStatus.Waiting ∧
        t'.phase = GamePhase.WaitingForPlayers) := by
  constructor
  · intro s sender tableId now t s' hget hleave
    have hb := getTable_bounds hget
    simp only [leaveTable, hget] at hleave
    rw [if_neg (not_not_intro hb)] at hleave
    split at hleave
    · exact Option.noConfusion hleave
    split at hleave
    · exact Option.noConfusion hleave
    rename_i p hfp
    split at hleave
    · rename_i hphase
      obtain rfl := Option.some.inj hleave
      constructor
      · intro h1 _
        exact absurd h1 hphase
      · intro _
        refine ⟨_, getTable_setTable _ tableId _ hb.1 (by simpa using hb.2),
          rfl, rfl, rfl, ?_⟩
        intro q hq
        rw [hfp] at hq
        obtain rfl := Option.some.inj hq
        simp only [setTable, addBal]
        exact getBal_setBal_self s.playerChips sender _
    · rename_i hphase
      have hphase' : t.phase = GamePhase.WaitingForPlayers := not_not.mp hphase
      split at hleave
      · rename_i hlen
        obtain rfl := Option.some.inj hleave
        constructor
        · intro _ _
          exact ⟨_, getTable_setTable _ tableId _ hb.1 (by simpa using hb.2),
            rfl, rfl⟩
        · intro h
          exact absurd hphase' h
      · rename_i hlen
        obtain rfl := Option.some.inj hleave
        constructor
        · intro _ h2
          exact absurd h2 (by simpa using hlen)
        · intro h
          exact absurd hphase' h
  · intro s sender tableId now t s' hget hcash hlt
    have hb := getTable_bounds hget
    simp only [cashOut, hget] at hcash
    rw [if_neg (not_not_intro hb)] at hcash
    split at hcash
    · exact Option.noConfusion hcash
    split at hcash
    · exact Option.noConfusion hcash
    split at hcash
    · exact Option.noConfusion hcash
    rename_i p hfp
    split at hcash
    · exact Option.noConfusion hcash
    obtain rfl := Option.some.inj hcash
    exact ⟨_, getTable_setTable _ tableId _ hb.1 (by simpa using hb.2), rfl, rfl⟩

/-- Witness for C3: concrete instantiations of both branches — a mid-hand
leave from `exStateMidHand` keeps status/phase; a between-hands cash-out
from a two-player waiting table reverts to Waiting/WaitingForPlayers. -/
theorem c3_witness :
    (∃ t', getTable ((leaveTable exStateMidHand 1 1 200).getD exStateMidHand) 1
        = some t' ∧
      t'.status = exTableMidHand.status ∧ t'.phase = exTableMidHand.phase ∧
      t'.players = removeFirstPlayer exTableMidHand.players 1 ∧
      (∀ p, findPlayer exTableMidHand.players 1 = some p →
        getBal ((leaveTable exStateMidHand 1 1 200).getD exStateMidHand).playerChips 1
          = getBal exStateMidHand.playerChips 1 + p.chips)) := by
  have h : leaveTable exStateMidHand 1 1 200
      = some ((leaveTable exStateMidHand 1 1 200).getD exStateMidHand) := rfl
  exact ((c3_below_two_reverts_only_between_hands.1 exStateMidHand 1 1 200
    exTableMidHand _ rfl h).2 (by decide))

theorem storeAndSettle_resets {now : Nat} {t : Table} {bank : Nat}
    {r : Table × Nat} (h : storeAndSettle now t bank = some r) :
    r.1.phase = GamePhase.WaitingForPlayers ∧ r.1.lastHandResult.timestamp = now := by
  simp only [storeAndSettle] at h
  split at h
  · exact Option.noConfusion h
  obtain rfl := Option.some.inj h
  exact ⟨rfl, rfl⟩

theorem startDealerTurn_resets {seed now : Nat} {t : Table} {bank : Nat}
    {r : Table × Nat} (h : startDealerTurn seed now t bank = some r) :
    r.1.phase = GamePhase.WaitingForPlayers ∧ r.1.lastHandResult.timestamp = now := by
  simp only [startDealerTurn] at h
  split at h
  · exact storeAndSettle_resets h
  · exact storeAndSettle_resets h

/-- C7: with TURN_TIMEOUT = 60, `forceAdvanceOnTimeout` during PlayerTurns
(1) fails while `now < lastActivityTimestamp + 60`;
(2) succeeds only once `lastActivityTimestamp + 60 ≤ now`;
(3) when a stalled player exists and marking the first stalled player
still leaves someone awaiting action, the call marks exactly that first
player as acted and stays in PlayerTurns (it never cascades);
(4) when no player is awaiting action, it forces the dealer-turn
transition, which settles and returns the table to WaitingForPlayers. -/
theorem c7_force_advance_on_timeout :
    (∀ s tableId now seed t, getTable s tableId = some t →
      t.phase = GamePhase.PlayerTurns →
      now < t.lastActivityTimestamp + TURN_TIMEOUT →
      forceAdvanceOnTimeout s tableId now seed = none) ∧
    (∀ s tableId now seed s', forceAdvanceOnTimeout s tableId now seed = some s' →
      ∀ t, getTable s tableId = some t →
        t.lastActivityTimestamp + TURN_TIMEOUT ≤ now) ∧
    (∀ s tableId now seed t s' i, getTable s tableId = some t →
      forceAdvanceOnTimeout s tableId now seed = some s' →
      t.players.findIdx? (fun p => p.isActive && !p.hasActed) = some i →
      (modifyPlayerAt t.players i fun q => { q with hasActed := true }).any
        (fun p => p.isActive && !p.hasActed) = true →
      ∃ t', getTable s' tableId = some t' ∧
        t'.players = modifyPlayerAt t.players i (fun q => { q with hasActed := true }) ∧
        t'.phase = t.phase ∧ t'.status = t.status ∧
        t'.lastActivityTimestamp = now) ∧
    (∀ s tableId now seed t s', getTable s tableId = some t →
      forceAdvanceOnTimeout s tableId now seed = some s' →
      t.players.findIdx? (fun p => p.isActive && !p.hasActed) = none →
      ∃ t', getTable s' tableId = some t' ∧
        t'.phase = GamePhase.WaitingForPlayers ∧
        t'.lastHandResult.timestamp = now) := by
  refine ⟨?_, ?_, ?_, ?_⟩
  · intro s tableId now seed t hget hphase hlt
    have hb := getTable_bounds hget
    have haction : forceAdvanceAction seed now t s.bankChips = none := by
      unfold forceAdvanceAction
      rw [if_neg (not_not_intro hphase), if_pos hlt]
    simp only [forceAdvanceOnTimeout, hget, haction]
    rw [if_neg (not_not_intro hb)]
  · intro s tableId now seed s' h t hget
    have hb := getTable_bounds hget
    simp only [forceAdvanceOnTimeout, hget] at h
    rw [if_neg (not_not_intro hb)] at h
    cases hact : forceAdvanceAction seed now t s.bankChips with
    | none => rw [hact] at h; exact Option.noConfusion h
    | some r =>
      simp only [forceAdvanceAction] at hact
      split at hact
      · exact Option.noConfusion hact
      split at hact
      · exact Option.noConfusion hact
      · rename_i hnl
        omega
  · intro s tableId now seed t s' i hget h hidx hany
    have hb := getTable_bounds hget
    simp only [forceAdvanceOnTimeout, hget] at h
    rw [if_neg (not_not_intro hb)] at h
    cases hact : forceAdvanceAction seed now t s.bankChips with
    | none => rw [hact] at h; exact Option.noConfusion h
    | some r =>
      obtain ⟨t2, bank2⟩ := r
      rw [hact] at h
      simp only at h
      obtain rfl := Option.some.inj h
      simp only [forceAdvanceAction, hidx, advanceToNextPlayer] at hact
      split at hact
      · exact Option.noConfusion hact
      split at hact
      · exact Option.noConfusion hact
      have hpair := Option.some.inj hact
      rw [Prod.mk.injEq] at hpair
      obtain ⟨rfl, rfl⟩ := hpair
      exact ⟨_, getTable_setTable _ tableId _ hb.1 (by simpa using hb.2),
        rfl, rfl, rfl, rfl⟩
  · intro s tableId now seed t s' hget h hidx
    have hb := getTable_bounds hget
    simp only [forceAdvanceOnTimeout, hget] at h
    rw [if_neg (not_not_intro hb)] at h
    cases hact : forceAdvanceAction seed now t s.bankChips with
    | none => rw [hact] at h; exact Option.noConfusion h
    | some r =>
      obtain ⟨t2, bank2⟩ := r
      rw [hact] at h
      simp only at h
      obtain rfl := Option.some.inj h
      simp only [forceAdvanceAction, hidx] at hact
      split at hact
      · exact Option.noConfusion hact
      split at hact
      · exact Option.noConfusion hact
      have hr := startDealerTurn_resets hact
      exact ⟨_, getTable_setTable _ tableId _ hb.1 (by simpa using hb.2),
        hr.1, hr.2⟩

/-- Witness for C7: at `lastActivityTimestamp = 100`, a call at time 159
fails; a call at 160 on a table with two stalled players succeeds and
marks exactly the first one; on a table with nobody awaiting action a
call at 160 completes the hand back to WaitingForPlayers. -/
theorem c7_witness :
    forceAdvanceOnTimeout exStateMidHand 1 159 0 = none ∧
    (∃ t', getTable ((forceAdvanceOnTimeout exStateTwoStalled 1 160 0).getD
        exStateTwoStalled) 1 = some t' ∧
      t'.players = modifyPlayerAt exTableTwoStalled.players 0
        (fun q => { q with hasActed := true }) ∧
      t'.phase = exTableTwoStalled.phase ∧ t'.status = exTableTwoStalled.status ∧
      t'.lastActivityTimestamp = 160) ∧
    (∃ t', getTable ((forceAdvanceOnTimeout exStateNoStalled 1 160 0).getD
        exStateNoStalled) 1 = some t' ∧
      t'.phase = GamePhase.WaitingForPlayers ∧
      t'.lastHandResult.timestamp = 160) := by
  refine ⟨?_, ?_, ?_⟩
  · exact c7_force_advance_on_timeout.1 exStateMidHand 1 159 0 exTableMidHand
      rfl rfl (by decide)
  · exact c7_force_advance_on_timeout.2.2.1 exStateTwoStalled 1 160 0
      exTableTwoStalled _ 0 rfl rfl (by decide) (by decide)
  · exact c7_force_advance_on_timeout.2.2.2 exStateNoStalled 1 160 0
      exTableNoStalled _ rfl rfl (by decide)

/-- C2 counterexample: with the global paused flag set, `placeBet`
succeeds (the claim says it must fail): the gameplay entry points carry no
pause check. -/
theorem c2_counterexample :
    exStatePausedWaiting.paused = true ∧
    (placeBet exStatePausedWaiting 1 1 2000 300 0).isSome = true :=
  ⟨rfl, rfl⟩

/-- `getTable` ignores the paused flag. -/
theorem getTable_paused (s : BJState) (b : Bool) (tid : Nat) :
    getTable { s with paused := b } tid = getTable s tid := rfl

set_option maxHeartbeats 2000000 in
/-- C2 (amended): the pause flag gates exactly the six entry points that
carry `whenNotPaused` — claimFreeChips, buyChips, withdrawChips,
topUpTableChips, createTable, joinTable — each of which fails with no
state change while paused; placeBet, hit, stand, doubleDown, leaveTable,
cashOut and forceAdvanceOnTimeout ignore the flag entirely: their outcome
(up to the carried paused bit itself) is identical whatever its value. -/
theorem c2_pause_gates_only_six_entry_points :
    (∀ s a, s.paused = true → claimFreeChips s a = none) ∧
    (∀ s a v, s.paused = true → buyChips s a v = none) ∧
    (∀ s a c, s.paused = true → withdrawChips s a c = none) ∧
    (∀ s a tid amt now, s.paused = true → topUpTableChips s a tid amt now = none) ∧
    (∀ s minB maxB now, s.paused = true → createTable s minB maxB now = none) ∧
    (∀ s a tid b now, s.paused = true → joinTable s a tid b now = none) ∧
    (∀ s b a tid amt now seed,
      Option.map stateCore (placeBet (setPaused s b) a tid amt now seed) =
        Option.map stateCore (placeBet s a tid amt now seed)) ∧
    (∀ s b a tid now seed,
      Option.map stateCore (hit (setPaused s b) a tid now seed) =
        Option.map stateCore (hit s a tid now seed)) ∧
    (∀ s b a tid now seed,
      Option.map stateCore (stand (setPaused s b) a tid now seed) =
        Option.map stateCore (stand s a tid now seed)) ∧
    (∀ s b a tid now seed,
      Option.map stateCore (doubleDown (setPaused s b) a tid now seed) =
        Option.map stateCore (doubleDown s a tid now seed)) ∧
    (∀ s b a tid now,
      Option.map stateCore (leaveTable (setPaused s b) a tid now) =
        Option.map stateCore (leaveTable s a tid now)) ∧
    (∀ s b a tid now,
      Option.map stateCore (cashOut (setPaused s b) a tid now) =
        Option.map stateCore (cashOut s a tid now)) ∧
    (∀ s b tid now seed,
      Option.map stateCore (forceAdvanceOnTimeout (setPaused s b) tid now seed) =
        Option.map stateCore (forceAdvanceOnTimeout s tid now seed)) := by
  refine ⟨?_, ?_, ?_, ?_, ?_, ?_, ?_, ?_, ?_, ?_, ?_, ?_, ?_⟩
  · intro s a hp
    simp [claimFreeChips, hp]
  · intro s a v hp
    simp [buyChips, hp]
  · intro s a c hp
    simp [withdrawChips, hp]
  · intro s a tid amt now hp
    simp [topUpTableChips, hp]
  · intro s minB maxB now hp
    simp [createTable, hp]
  · intro s a tid b now hp
    simp [joinTable, hp]
  · intro s b a tid amt now seed
    simp only [placeBet, setPaused, getTable_paused]
    repeat' split
    all_goals simp [stateCore, setTable]
  · intro s b a tid now seed
    simp only [hit, setPaused, getTable_paused]
    repeat' split
    all_goals simp [stateCore, setTable]
  · intro s b a tid now seed
    simp only [stand, setPaused, getTable_paused]
    repeat' split
    all_goals simp [stateCore, setTable]
  · intro s b a tid now seed
    simp only [doubleDown, setPaused, getTable_paused]
    repeat' split
    all_goals simp [stateCore, setTable]
  · intro s b a tid now
    simp only [leaveTable, setPaused, getTable_paused]
    repeat' split
    all_goals simp [stateCore, setTable]
  · intro s b a tid now
    simp only [cashOut, setPaused, getTable_paused]
    repeat' split
    all_goals simp [stateCore, setTable]
  · intro s b tid now seed
    simp only [forceAdvanceOnTimeout, setPaused, getTable_paused]
    repeat' split
    all_goals simp [stateCore, setTable]

/-- Witness for C2 at the concrete paused state: all six gated entry
points reject while the pause-independence parts are instantiated through
the claim theorem itself elsewhere. -/
theorem c2_witness :
    claimFreeChips exStatePausedWaiting 7 = none ∧
    buyChips exStatePausedWaiting 7 5 = none ∧
    withdrawChips exStatePausedWaiting 1 10 = none ∧
    topUpTableChips exStatePausedWaiting 1 1 10 300 = none ∧
    createTable exStatePausedWaiting 1000 2000 300 = none ∧
    joinTable exStatePausedWaiting 7 1 2000 300 = none ∧
    Option.map stateCore (placeBet (setPaused exStatePausedWaiting true) 1 1 2000 300 0) =
      Option.map stateCore (placeBet exStatePausedWaiting 1 1 2000 300 0) :=
  ⟨c2_pause_gates_only_six_entry_points.1 exStatePausedWaiting 7 rfl,
   c2_pause_gates_only_six_entry_points.2.1 exStatePausedWaiting 7 5 rfl,
   c2_pause_gates_only_six_entry_points.2.2.1 exStatePausedWaiting 1 10 rfl,
   c2_pause_gates_only_six_entry_points.2.2.2.1 exStatePausedWaiting 1 1 10 300 rfl,
   c2_pause_gates_only_six_entry_points.2.2.2.2.1 exStatePausedWaiting 1000 2000 300 rfl,
   c2_pause_gates_only_six_entry_points.2.2.2.2.2.1 exStatePausedWaiting 7 1 2000 300 rfl,
   c2_pause_gates_only_six_entry_points.2.2.2.2.2.2.1 exStatePausedWaiting true 1 1 2000 300 0⟩

/-- Any successful settlement of `q :: qs` settles `qs` from some
intermediate bank, conses one player and at most one result. -/
theorem settleLoop_cons_shape {dv : Nat} {db : Bool} {q : Player} {qs : List Player}
    {bank : Nat} {ps' : List Player} {bank' : Nat} {rs : List PlayerResult}
    (h : settleLoop dv db (q :: qs) bank = some (ps', bank', rs)) :
    ∃ q' bank1 ps1 rs1, settleLoop dv db qs bank1 = some (ps1, bank', rs1) ∧
      ps' = q' :: ps1 ∧ (rs = rs1 ∨ ∃ pr, rs = pr :: rs1) := by
  simp only [settleLoop] at h
  by_cases hq : q.isActive = false
  · rw [if_pos hq] at h
    cases heq : settleLoop dv db qs bank with
    | none => rw [heq] at h; exact Option.noConfusion h
    | some r =>
      obtain ⟨ps1, b1, rs1⟩ := r
      rw [heq] at h
      simp only at h
      have h3 := Option.some.inj h
      rw [Prod.mk.injEq, Prod.mk.injEq] at h3
      obtain ⟨rfl, rfl, rfl⟩ := h3
      exact ⟨q, bank, ps1, rs1, heq, rfl, Or.inl rfl⟩
  · rw [if_neg hq] at h
    by_cases h21 : 21 < calculateHandValue q.cards
    · rw [if_pos h21] at h
      cases heq : settleLoop dv db qs bank with
      | none => rw [heq] at h; exact Option.noConfusion h
      | some r =>
        obtain ⟨ps1, b1, rs1⟩ := r
        rw [heq] at h
        simp only at h
        have h3 := Option.some.inj h
        rw [Prod.mk.injEq, Prod.mk.injEq] at h3
        obtain ⟨rfl, rfl, rfl⟩ := h3
        exact ⟨q, bank, ps1, rs1, heq, rfl, Or.inr ⟨_, rfl⟩⟩
    · rw [if_neg h21] at h
      by_cases hwin : db = true ∨ dv < calculateHandValue q.cards
      · rw [if_pos hwin] at h
        by_cases hbank : bank <
            (if isBlackjack q.cards = true then q.bet + q.bet * 3 / 2 else q.bet * 2)
        · rw [if_pos hbank] at h
          exact Option.noConfusion h
        · rw [if_neg hbank] at h
          cases heq : settleLoop dv db qs (bank -
              (if isBlackjack q.cards = true then q.bet + q.bet * 3 / 2
                else q.bet * 2)) with
          | none => rw [heq] at h; exact Option.noConfusion h
          | some r =>
            obtain ⟨ps1, b1, rs1⟩ := r
            rw [heq] at h
            simp only at h
            have h3 := Option.some.inj h
            rw [Prod.mk.injEq, Prod.mk.injEq] at h3
            obtain ⟨rfl, rfl, rfl⟩ := h3
            exact ⟨_, _, ps1, rs1, heq, rfl, Or.inr ⟨_, rfl⟩⟩
      · rw [if_neg hwin] at h
        by_cases hpush : calculateHandValue q.cards = dv
        · rw [if_pos hpush] at h
          by_cases hbank : bank < q.bet
          · rw [if_pos hbank] at h
            exact Option.noConfusion h
          · rw [if_neg hbank] at h
            cases heq : settleLoop dv db qs (bank - q.bet) with
            | none => rw [heq] at h; exact Option.noConfusion h
            | some r =>
              obtain ⟨ps1, b1, rs1⟩ := r
              rw [heq] at h
              simp only at h
              have h3 := Option.some.inj h
              rw [Prod.mk.injEq, Prod.mk.injEq] at h3
              obtain ⟨rfl, rfl, rfl⟩ := h3
              exact ⟨_, _, ps1, rs1, heq, rfl, Or.inr ⟨_, rfl⟩⟩
        · rw [if_neg hpush] at h
          cases heq : settleLoop dv db qs bank with
          | none => rw [heq] at h; exact Option.noConfusion h
          | some r =>
            obtain ⟨ps1, b1, rs1⟩ := r
            rw [heq] at h
            simp only at h
            have h3 := Option.some.inj h
            rw [Prod.mk.injEq, Prod.mk.injEq] at h3
            obtain ⟨rfl, rfl, rfl⟩ := h3
            exact ⟨q, bank, ps1, rs1, heq, rfl, Or.inr ⟨_, rfl⟩⟩

/-- In any successful settlement, an active, not-busted player who beats
the dealer and holds a natural blackjack keeps their seat, is paid
`bet + bet*3/2`, and contributes a Blackjack result entry. -/
theorem settleLoop_blackjack_payout (dv : Nat) (db : Bool) :
    ∀ (ps : List Player) (bank : Nat) ps' bank' rs,
      settleLoop dv db ps bank = some (ps', bank', rs) →
      ∀ (i : Nat) (p : Player), ps[i]? = some p → p.isActive = true →
        calculateHandValue p.cards ≤ 21 →
        (db = true ∨ dv < calculateHandValue p.cards) →
        isBlackjack p.cards = true →
        ps'[i]? = some { p with chips := p.chips + (p.bet + p.bet * 3 / 2) } ∧
        (⟨p.addr, p.bet, calculateHandValue p.cards, Outcome.Blackjack,
          p.bet + p.bet * 3 / 2, p.cards⟩ : PlayerResult) ∈ rs := by
  intro ps
  induction ps with
  | nil =>
    intro bank ps' bank' rs h i p hip
    simp at hip
  | cons q qs ih =>
    intro bank ps' bank' rs h i p hip hact hle hwin hbj
    cases i with
    | succ j =>
      obtain ⟨q', bank1, ps1, rs1, heq, rfl, hrs⟩ := settleLoop_cons_shape h
      have hj : qs[j]? = some p := by simpa using hip
      obtain ⟨h1, h2⟩ := ih bank1 ps1 bank' rs1 heq j p hj hact hle hwin hbj
      refine ⟨by simpa using h1, ?_⟩
      rcases hrs with rfl | ⟨pr, rfl⟩
      · exact h2
      · exact List.mem_cons_of_mem pr h2
    | zero =>
      have hp : q = p := by simpa using hip
      subst hp
      simp only [settleLoop] at h
      rw [if_neg (by simp [hact])] at h
      rw [if_neg (by omega)] at h
      rw [if_pos hwin] at h
      rw [if_pos hbj] at h
      by_cases hbank : bank < q.bet + q.bet * 3 / 2
      · rw [if_pos hbank] at h
        exact Option.noConfusion h
      rw [if_neg hbank] at h
      cases heq : settleLoop dv db qs (bank - (q.bet + q.bet * 3 / 2)) with
      | none => rw [heq] at h; exact Option.noConfusion h
      | some r =>
        obtain ⟨ps1, b1, rs1⟩ := r
        rw [heq] at h
        simp only at h
        have h3 := Option.some.inj h
        rw [Prod.mk.injEq, Prod.mk.injEq] at h3
        obtain ⟨rfl, rfl, rfl⟩ := h3
        constructor
        · simp
        · rw [if_pos hbj]
          exact List.mem_cons_self _ _

/-- C4: at settlement, every active player with total at most 21 who
beats the dealer (dealer busted or total above the dealer's) and holds a
natural blackjack gets outcome Blackjack with payout `bet + bet*3/2`
credited to their table stack. -/
theorem c4_blackjack_pays_three_halves :
    ∀ now t bank t' bank', storeAndSettle now t bank = some (t', bank') →
    ∀ (i : Nat) (p : Player), t.players[i]? = some p → p.isActive = true →
      calculateHandValue p.cards ≤ 21 →
      (21 < calculateHandValue t.dealer.cards ∨
        calculateHandValue t.dealer.cards < calculateHandValue p.cards) →
      isBlackjack p.cards = true →
      (∃ p', t'.players[i]? = some p' ∧ p'.addr = p.addr ∧
        p'.chips = p.chips + (p.bet + p.bet * 3 / 2)) ∧
      (⟨p.addr, p.bet, calculateHandValue p.cards, Outcome.Blackjack,
        p.bet + p.bet * 3 / 2, p.cards⟩ : PlayerResult)
        ∈ t'.lastHandResult.results := by
  intro now t bank t' bank' h i p hip hact hle hwin hbj
  simp only [storeAndSettle] at h
  cases heq : settleLoop (calculateHandValue t.dealer.cards)
      (decide (21 < calculateHandValue t.dealer.cards)) t.players
      (bank + activeBetSum t.players) with
  | none => rw [heq] at h; exact Option.noConfusion h
  | some r =>
    obtain ⟨ps1, b1, rs1⟩ := r
    rw [heq] at h
    simp only at h
    have h3 := Option.some.inj h
    rw [Prod.mk.injEq] at h3
    obtain ⟨rfl, rfl⟩ := h3
    have hwin' : decide (21 < calculateHandValue t.dealer.cards) = true ∨
        calculateHandValue t.dealer.cards < calculateHandValue p.cards := by
      rcases hwin with hw | hw
      · exact Or.inl (by simpa using hw)
      · exact Or.inr hw
    obtain ⟨h1, h2⟩ := settleLoop_blackjack_payout
      (calculateHandValue t.dealer.cards)
      (decide (21 < calculateHandValue t.dealer.cards))
      t.players _ ps1 b1 rs1 heq i p hip hact hle hwin' hbj
    constructor
    · refine ⟨⟨p.addr, p.chips + (p.bet + p.bet * 3 / 2), 0, [], false, false⟩,
        ?_, rfl, rfl⟩
      simp only [resetHand]
      rw [List.getElem?_map, h1]
      rfl
    · exact h2

/-- Witness for C4: the spec's concrete scenario — a player who bought in
5000 and bet 2000 (stack 3000), dealt ace+king against a dealer 19, ends
with table stack 8000 and a Blackjack result entry of payout 5000. -/
theorem c4_witness :
    (∃ p', (((storeAndSettle 500 exTableMidHand 1000000000).getD
        (exTableMidHand, 0)).1).players[0]? = some p' ∧ p'.addr = 1 ∧
        p'.chips = 8000) ∧
    (⟨1, 2000, 21, Outcome.Blackjack, 5000, [⟨14, 3⟩, ⟨13, 3⟩]⟩ : PlayerResult)
      ∈ (((storeAndSettle 500 exTableMidHand 1000000000).getD
        (exTableMidHand, 0)).1).lastHandResult.results := by
  have hs : storeAndSettle 500 exTableMidHand 1000000000 =
      some ((storeAndSettle 500 exTableMidHand 1000000000).getD (exTableMidHand, 0)) :=
    rfl
  have h := c4_blackjack_pays_three_halves 500 exTableMidHand 1000000000 _ _ hs
    0 exPlayer1 rfl rfl (by decide) (by decide) (by decide)
  refine ⟨?_, ?_⟩
  · obtain ⟨⟨p', hp, ha, hc⟩, _⟩ := h
    refine ⟨p', hp, ha, ?_⟩
    rw [hc]
    decide
  · exact h.2

/-- C8: deck integrity.  (1) After any run of `_shuffleDeck` — for every
seed — the 52 deck positions hold each canonical card index 1..52 exactly
once.  (2) Drawing a card (dealer or player) from any table leaves the
cursor at or below 52.  (3) Whenever fewer cards remain than a draw
needs, `_ensureCardsAvailable` resets the cursor to 0 and reshuffles
before the draw. -/
theorem c8_deck_integrity :
    (∀ seed c, (deckMultiset (shuffleDeck seed)).count c =
      if 1 ≤ c ∧ c ≤ 52 then 1 else 0) ∧
    (∀ seed t, (dealCardToDealer seed t).deckIndex ≤ 52 ∧
      ∀ a, (dealCardToPlayer seed t a).deckIndex ≤ 52) ∧
    (∀ seed t need, 52 - t.deckIndex < need →
      (ensureCardsAvailable seed t need).deckIndex = 0 ∧
      (ensureCardsAvailable seed t need).deck = shuffleDeck seed) := by
  refine ⟨shuffleDeck_counts, ?_, ?_⟩
  · intro seed t
    constructor
    · simp only [dealCardToDealer, ensureCardsAvailable]
      split_ifs with h
      · simp
      · simp
        omega
    · intro a
      simp only [dealCardToPlayer, ensureCardsAvailable]
      split_ifs with h
      · simp
      · simp
        omega
  · intro seed t need h
    simp only [ensureCardsAvailable]
    rw [if_pos h]
    exact ⟨rfl, rfl⟩

/-- Witness for C8's conditional part at a concrete exhausted table. -/
theorem c8_witness :
    (ensureCardsAvailable 0 { exTableMidHand with deckIndex := 52 } 1).deckIndex = 0 ∧
    (ensureCardsAvailable 0 { exTableMidHand with deckIndex := 52 } 1).deck =
      shuffleDeck 0 :=
  c8_deck_integrity.2.2 0 { exTableMidHand with deckIndex := 52 } 1 (by decide)

theorem ensureCardsAvailable_fields (seed : Nat) (t : Table) (need : Nat) :
    (ensureCardsAvailable seed t need).phase = t.phase ∧
    (ensureCardsAvailable seed t need).hasPendingResult = t.hasPendingResult ∧
    (ensureCardsAvailable seed t need).players = t.players := by
  unfold ensureCardsAvailable
  split <;> exact ⟨rfl, rfl, rfl⟩

theorem dealCardToDealer_fields (seed : Nat) (t : Table) :
    (dealCardToDealer seed t).phase = t.phase ∧
    (dealCardToDealer seed t).hasPendingResult = t.hasPendingResult ∧
    (dealCardToDealer seed t).players = t.players := by
  simp only [dealCardToDealer, ensureCardsAvailable]
  split <;> exact ⟨rfl, rfl, rfl⟩

theorem dealCardToPlayer_fields (seed : Nat) (t : Table) (a : Nat) :
    (dealCardToPlayer seed t a).phase = t.phase ∧
    (dealCardToPlayer seed t a).hasPendingResult = t.hasPendingResult := by
  simp only [dealCardToPlayer, ensureCardsAvailable]
  split <;> exact ⟨rfl, rfl⟩

theorem dealerLoop_fields (seed : Nat) :
    ∀ (fuel : Nat) (t : Table),
      (dealerLoop seed fuel t).phase = t.phase ∧
      (dealerLoop seed fuel t).hasPendingResult = t.hasPendingResult ∧
      (dealerLoop seed fuel t).players = t.players := by
  intro fuel
  induction fuel with
  | zero => intro t; exact ⟨rfl, rfl, rfl⟩
  | succ n ih =>
    intro t
    rw [dealerLoop]
    split
    · obtain ⟨h1, h2, h3⟩ := ih (dealCardToDealer seed t)
      obtain ⟨g1, g2, g3⟩ := dealCardToDealer_fields seed t
      exact ⟨h1.trans g1, h2.trans g2, h3.trans g3⟩
    · exact ⟨rfl, rfl, rfl⟩

theorem storeAndSettle_pending {now : Nat} {t : Table} {bank : Nat}
    {r : Table × Nat} (h : storeAndSettle now t bank = some r) :
    r.1.phase = GamePhase.WaitingForPlayers ∧
    r.1.hasPendingResult = t.hasPendingResult := by
  simp only [storeAndSettle] at h
  cases heq : settleLoop (calculateHandValue t.dealer.cards)
      (decide (21 < calculateHandValue t.dealer.cards)) t.players
      (bank + activeBetSum t.players) with
  | none => rw [heq] at h; exact Option.noConfusion h
  | some r1 =>
    obtain ⟨ps1, b1, rs1⟩ := r1
    rw [heq] at h
    simp only at h
    obtain rfl := Option.some.inj h
    exact ⟨rfl, rfl⟩

theorem startDealerTurn_pending {seed now : Nat} {t : Table} {bank : Nat}
    {r : Table × Nat} (h : startDealerTurn seed now t bank = some r) :
    r.1.phase = GamePhase.WaitingForPlayers ∧
    r.1.hasPendingResult = t.hasPendingResult := by
  simp only [startDealerTurn] at h
  split at h
  · exact storeAndSettle_pending h
  · obtain ⟨h1, h2⟩ := storeAndSettle_pending h
    refine ⟨h1, h2.trans ?_⟩
    exact (dealerLoop_fields seed 32 _).2.1

theorem advanceToNextPlayer_pending {seed now : Nat} {t : Table} {bank : Nat}
    {r : Table × Nat} (h : advanceToNextPlayer seed now t bank = some r) :
    r.1 = t ∨ (r.1.phase = GamePhase.WaitingForPlayers ∧
      r.1.hasPendingResult = t.hasPendingResult) := by
  simp only [advanceToNextPlayer] at h
  split at h
  · obtain rfl := Option.some.inj h
    exact Or.inl rfl
  · exact Or.inr (startDealerTurn_pending h)

theorem checkForNaturalBlackjacks_pending {seed now : Nat} {t : Table} {bank : Nat}
    {r : Table × Nat} (h : checkForNaturalBlackjacks seed now t bank = some r) :
    r.1.hasPendingResult = t.hasPendingResult ∧
    (r.1.phase = t.phase ∨ r.1.phase = GamePhase.WaitingForPlayers) := by
  simp only [checkForNaturalBlackjacks] at h
  split at h
  · obtain ⟨hph, hpd⟩ := startDealerTurn_pending h
    exact ⟨hpd, Or.inr hph⟩
  · obtain rfl := Option.some.inj h
    exact ⟨rfl, Or.inl rfl⟩

theorem startNewHandDeal_fields (seed : Nat) :
    ∀ (fuel i : Nat) (t : Table),
      (startNewHandDeal seed fuel i t).phase = t.phase ∧
      (startNewHandDeal seed fuel i t).hasPendingResult = t.hasPendingResult := by
  intro fuel
  induction fuel with
  | zero => intro i t; exact ⟨rfl, rfl⟩
  | succ n ih =>
    intro i t
    rw [startNewHandDeal]
    cases hpi : t.players[i]? with
    | none => exact ⟨rfl, rfl⟩
    | some p =>
      simp only
      split
      · refine ⟨(ih _ _).1.trans ?_, (ih _ _).2.trans ?_⟩
        · rw [(dealCardToPlayer_fields _ _ _).1, (dealCardToPlayer_fields _ _ _).1]
        · rw [(dealCardToPlayer_fields _ _ _).2, (dealCardToPlayer_fields _ _ _).2]
      · exact ⟨(ih _ _).1, (ih _ _).2⟩

theorem startNewHand_pending {seed now : Nat} {t : Table} {bank : Nat}
    {r : Table × Nat} (h : startNewHand seed now t bank = some r) :
    r.1.hasPendingResult = t.hasPendingResult ∧
    r.1.phase ≠ GamePhase.Completed := by
  simp only [startNewHand] at h
  split at h
  · exact Option.noConfusion h
  rename_i t6 bank6 heq
  obtain rfl := Option.some.inj h
  have hp : t6.hasPendingResult = t.hasPendingResult := by
    rw [(checkForNaturalBlackjacks_pending heq).1,
      (dealCardToDealer_fields _ _).2.1, (dealCardToDealer_fields _ _).2.1]
    exact (startNewHandDeal_fields _ _ _ _).2
  constructor
  · split
    · exact hp
    · exact hp
  · split
    · simp
    · rename_i hne
      rcases (checkForNaturalBlackjacks_pending heq).2 with h6 | h6
      · exfalso
        apply hne
        rw [h6, (dealCardToDealer_fields _ _).1, (dealCardToDealer_fields _ _).1]
        exact (startNewHandDeal_fields _ _ _ _).1
      · rw [h6]
        simp

theorem tableOk_iff (t : Table) : tableOk t = true ↔
    (t.phase ≠ GamePhase.Completed ∧ t.hasPendingResult = false) := by
  simp [tableOk]

theorem tablesOk_getTable {s : BJState} {tid : Nat} {t : Table}
    (hok : tablesOk s = true) (h : getTable s tid = some t) : tableOk t = true := by
  have hmem : t ∈ s.tables := List.getElem?_mem (getTable_eq_elem h)
  rw [tablesOk, List.all_eq_true] at hok
  exact hok t hmem

theorem tablesOk_setTable {s : BJState} {tid : Nat} {t' : Table}
    (hok : tablesOk s = true) (ht : tableOk t' = true) :
    tablesOk (setTable s tid t') = true := by
  rw [tablesOk, List.all_eq_true] at hok ⊢
  intro x hx
  rcases List.mem_or_eq_of_mem_set hx with hx' | rfl
  · exact hok x hx'
  · exact ht

theorem placeBetAction_ok {seed now : Nat} {t : Table} {sender amt bank : Nat}
    {r : Table × Nat} (h : placeBetAction seed now t sender amt bank = some r)
    (hok : tableOk t = true) : tableOk r.1 = true := by
  rw [tableOk_iff] at hok ⊢
  simp only [placeBetAction] at h
  split at h
  · exact Option.noConfusion h
  split at h
  · exact Option.noConfusion h
  split at h
  · exact Option.noConfusion h
  split at h
  · obtain ⟨h1, h2⟩ := startNewHand_pending h
    exact ⟨h2, h1.trans hok.2⟩
  · obtain rfl := Option.some.inj h
    exact ⟨hok.1, hok.2⟩

theorem hitAction_ok {seed now : Nat} {t : Table} {sender bank : Nat}
    {r : Table × Nat} (h : hitAction seed now t sender bank = some r)
    (hok : tableOk t = true) : tableOk r.1 = true := by
  rw [tableOk_iff] at hok ⊢
  simp only [hitAction] at h
  split at h
  · exact Option.noConfusion h
  split at h
  · exact Option.noConfusion h
  split at h
  · exact Option.noConfusion h
  split at h
  · exact Option.noConfusion h
  split at h
  · rcases advanceToNextPlayer_pending h with heq | ⟨h1, h2⟩
    · rw [heq]
      refine ⟨?_, ?_⟩
      · show (dealCardToPlayer seed t sender).phase ≠ GamePhase.Completed
        rw [(dealCardToPlayer_fields _ _ _).1]
        exact hok.1
      · show (dealCardToPlayer seed t sender).hasPendingResult = false
        rw [(dealCardToPlayer_fields _ _ _).2]
        exact hok.2
    · refine ⟨by rw [h1]; simp, ?_⟩
      rw [h2]
      show (dealCardToPlayer seed t sender).hasPendingResult = false
      rw [(dealCardToPlayer_fields _ _ _).2]
      exact hok.2
  · obtain rfl := Option.some.inj h
    refine ⟨?_, ?_⟩
    · show (dealCardToPlayer seed t sender).phase ≠ GamePhase.Completed
      rw [(dealCardToPlayer_fields _ _ _).1]
      exact hok.1
    · show (dealCardToPlayer seed t sender).hasPendingResult = false
      rw [(dealCardToPlayer_fields _ _ _).2]
      exact hok.2

theorem standAction_ok {seed now : Nat} {t : Table} {sender bank : Nat}
    {r : Table × Nat} (h : standAction seed now t sender bank = some r)
    (hok : tableOk t = true) : tableOk r.1 = true := by
  rw [tableOk_iff] at hok ⊢
  simp only [standAction] at h
  split at h
  · exact Option.noConfusion h
  split at h
  · exact Option.noConfusion h
  split at h
  · exact Option.noConfusion h
  split at h
  · exact Option.noConfusion h
  rcases advanceToNextPlayer_pending h with heq | ⟨h1, h2⟩
  · rw [heq]
    exact ⟨hok.1, hok.2⟩
  · exact ⟨by rw [h1]; simp, by rw [h2]; exact hok.2⟩

theorem doubleDownAction_ok {seed now : Nat} {t : Table} {sender bank : Nat}
    {r : Table × Nat} (h : doubleDownAction seed now t sender bank = some r)
    (hok : tableOk t = true) : tableOk r.1 = true := by
  rw [tableOk_iff] at hok ⊢
  simp only [doubleDownAction] at h
  split at h
  · exact Option.noConfusion h
  split at h
  · exact Option.noConfusion h
  split at h
  · exact Option.noConfusion h
  split at h
  · exact Option.noConfusion h
  rename_i p hfp
  split at h
  · exact Option.noConfusion h
  split at h
  · exact Option.noConfusion h
  split at h
  · exact Option.noConfusion h
  rename_i p2 hfp2
  rcases advanceToNextPlayer_pending h with heq | ⟨h1, h2⟩
  · rw [heq]
    constructor
    · show (if isBusted p2.cards = true then _ else _ : Table).phase ≠ _
      split
      · show (dealCardToPlayer seed _ sender).phase ≠ GamePhase.Completed
        rw [(dealCardToPlayer_fields _ _ _).1]
        exact hok.1
      · show (dealCardToPlayer seed _ sender).phase ≠ GamePhase.Completed
        rw [(dealCardToPlayer_fields _ _ _).1]
        exact hok.1
    · show (if isBusted p2.cards = true then _ else _ : Table).hasPendingResult = _
      split
      · show (dealCardToPlayer seed _ sender).hasPendingResult = false
        rw [(dealCardToPlayer_fields _ _ _).2]
        exact hok.2
      · show (dealCardToPlayer seed _ sender).hasPendingResult = false
        rw [(dealCardToPlayer_fields _ _ _).2]
        exact hok.2
  · refine ⟨by rw [h1]; simp, ?_⟩
    rw [h2]
    show (if isBusted p2.cards = true then _ else _ : Table).hasPendingResult = _
    split
    · show (dealCardToPlayer seed _ sender).hasPendingResult = false
      rw [(dealCardToPlayer_fields _ _ _).2]
      exact hok.2
    · show (dealCardToPlayer seed _ sender).hasPendingResult = false
      rw [(dealCardToPlayer_fields _ _ _).2]
      exact hok.2

theorem forceAdvanceAction_ok {seed now : Nat} {t : Table} {bank : Nat}
    {r : Table × Nat} (h : forceAdvanceAction seed now t bank = some r)
    (hok : tableOk t = true) : tableOk r.1 = true := by
  rw [tableOk_iff] at hok ⊢
  simp only [forceAdvanceAction] at h
  split at h
  · exact Option.noConfusion h
  split at h
  · exact Option.noConfusion h
  split at h
  · rcases advanceToNextPlayer_pending h with heq | ⟨h1, h2⟩
    · rw [heq]
      exact ⟨hok.1, hok.2⟩
    · exact ⟨by rw [h1]; simp, by rw [h2]; exact hok.2⟩
  · obtain ⟨h1, h2⟩ := startDealerTurn_pending h
    exact ⟨by rw [h1]; simp, by rw [h2]; exact hok.2⟩

/-- Every successful call preserves the table invariant "phase is not
Completed and no pending result". -/
theorem step_tablesOk {s : BJState} {op : Op} {s' : BJState}
    (h : step s op = some s') (hok : tablesOk s = true) : tablesOk s' = true := by
  cases op with
  | claimFreeChips a =>
    simp only [step, claimFreeChips] at h
    split at h
    · exact Option.noConfusion h
    split at h
    · exact Option.noConfusion h
    split at h
    · exact Option.noConfusion h
    obtain rfl := Option.some.inj h
    exact hok
  | buyChips a v =>
    simp only [step, buyChips] at h
    split at h
    · exact Option.noConfusion h
    split at h
    · exact Option.noConfusion h
    split at h
    · exact Option.noConfusion h
    obtain rfl := Option.some.inj h
    exact hok
  | withdrawChips a c =>
    simp only [step, withdrawChips] at h
    split at h
    · exact Option.noConfusion h
    split at h
    · exact Option.noConfusion h
    split at h
    · exact Option.noConfusion h
    split at h
    · exact Option.noConfusion h
    split at h
    · exact Option.noConfusion h
    split at h
    · exact Option.noConfusion h
    obtain rfl := Option.some.inj h
    exact hok
  | topUpTableChips a tid amt now =>
    simp only [step, topUpTableChips] at h
    split at h
    · exact Option.noConfusion h
    split at h
    · exact Option.noConfusion h
    split at h
    · exact Option.noConfusion h
    split at h
    · exact Option.noConfusion h
    split at h
    · exact Option.noConfusion h
    rename_i t hget
    split at h
    · exact Option.noConfusion h
    split at h
    · exact Option.noConfusion h
    split at h
    · exact Option.noConfusion h
    obtain rfl := Option.some.inj h
    have htok := tablesOk_getTable hok hget
    exact tablesOk_setTable hok htok
  | fundBank a v =>
    simp only [step, fundBank] at h
    split at h
    · exact Option.noConfusion h
    split at h
    · exact Option.noConfusion h
    obtain rfl := Option.some.inj h
    exact hok
  | defundBank a c =>
    simp only [step, defundBank] at h
    split at h
    · exact Option.noConfusion h
    split at h
    · exact Option.noConfusion h
    split at h
    · exact Option.noConfusion h
    split at h
    · exact Option.noConfusion h
    obtain rfl := Option.some.inj h
    exact hok
  | createTable minB maxB now =>
    simp only [step, createTable] at h
    split at h
    · exact Option.noConfusion h
    split at h
    · exact Option.noConfusion h
    split at h
    · exact Option.noConfusion h
    obtain rfl := Option.some.inj h
    rw [tablesOk] at hok ⊢
    simp only [List.all_append, hok]
    rfl
  | joinTable a tid b now =>
    simp only [step, joinTable] at h
    split at h
    · exact Option.noConfusion h
    split at h
    · exact Option.noConfusion h
    rename_i t hget
    split at h
    · exact Option.noConfusion h
    split at h
    · exact Option.noConfusion h
    split at h
    · exact Option.noConfusion h
    split at h
    · exact Option.noConfusion h
    obtain rfl := Option.some.inj h
    have htok := tablesOk_getTable hok hget
    refine tablesOk_setTable hok ?_
    split
    · exact htok
    · exact htok
  | leaveTable a tid now =>
    simp only [step, leaveTable] at h
    split at h
    · exact Option.noConfusion h
    split at h
    · exact Option.noConfusion h
    split at h
    · exact Option.noConfusion h
    rename_i t hget
    split at h
    · exact Option.noConfusion h
    rename_i p hfp
    have htok := tablesOk_getTable hok hget
    split at h
    · obtain rfl := Option.some.inj h
      exact tablesOk_setTable hok htok
    · obtain rfl := Option.some.inj h
      refine tablesOk_setTable hok ?_
      split
      · rw [tableOk_iff] at htok ⊢
        exact ⟨by simp, htok.2⟩
      · exact htok
  | cashOut a tid now =>
    simp only [step, cashOut] at h
    split at h
    · exact Option.noConfusion h
    split at h
    · exact Option.noConfusion h
    split at h
    · exact Option.noConfusion h
    rename_i t hget
    split at h
    · exact Option.noConfusion h
    split at h
    · exact Option.noConfusion h
    rename_i p hfp
    have htok := tablesOk_getTable hok hget
    split at h
    · exact Option.noConfusion h
    obtain rfl := Option.some.inj h
    refine tablesOk_setTable hok ?_
    split
    · rw [tableOk_iff] at htok ⊢
      exact ⟨by simp, htok.2⟩
    · exact htok
  | placeBet a tid amt now seed =>
    simp only [step, placeBet] at h
    split at h
    · exact Option.noConfusion h
    split at h
    · exact Option.noConfusion h
    split at h
    · exact Option.noConfusion h
    rename_i t hget
    split at h
    · exact Option.noConfusion h
    rename_i r t2 bank2 heq
    obtain rfl := Option.some.inj h
    exact tablesOk_setTable hok (placeBetAction_ok heq (tablesOk_getTable hok hget))
  | hit a tid now seed =>
    simp only [step, hit] at h
    split at h
    · exact Option.noConfusion h
    split at h
    · exact Option.noConfusion h
    split at h
    · exact Option.noConfusion h
    rename_i t hget
    split at h
    · exact Option.noConfusion h
    rename_i r t2 bank2 heq
    obtain rfl := Option.some.inj h
    exact tablesOk_setTable hok (hitAction_ok heq (tablesOk_getTable hok hget))
  | stand a tid now seed =>
    simp only [step, stand] at h
    split at h
    · exact Option.noConfusion h
    split at h
    · exact Option.noConfusion h
    split at h
    · exact Option.noConfusion h
    rename_i t hget
    split at h
    · exact Option.noConfusion h
    rename_i r t2 bank2 heq
    obtain rfl := Option.some.inj h
    exact tablesOk_setTable hok (standAction_ok heq (tablesOk_getTable hok hget))
  | doubleDown a tid now seed =>
    simp only [step, doubleDown] at h
    split at h
    · exact Option.noConfusion h
    split at h
    · exact Option.noConfusion h
    split at h
    · exact Option.noConfusion h
    rename_i t hget
    split at h
    · exact Option.noConfusion h
    rename_i r t2 bank2 heq
    obtain rfl := Option.some.inj h
    exact tablesOk_setTable hok (doubleDownAction_ok heq (tablesOk_getTable hok hget))
  | forceAdvanceOnTimeout tid now seed =>
    simp only [step, forceAdvanceOnTimeout] at h
    split at h
    · exact Option.noConfusion h
    split at h
    · exact Option.noConfusion h
    rename_i t hget
    split at h
    · exact Option.noConfusion h
    rename_i r t2 bank2 heq
    obtain rfl := Option.some.inj h
    exact tablesOk_setTable hok (forceAdvanceAction_ok heq (tablesOk_getTable hok hget))
  | pause a =>
    simp only [step, pause] at h
    split at h
    · exact Option.noConfusion h
    obtain rfl := Option.some.inj h
    exact hok
  | unpause a =>
    simp only [step, unpause] at h
    split at h
    · exact Option.noConfusion h
    obtain rfl := Option.some.inj h
    exact hok
  | transferOwnership a o =>
    simp only [step, transferOwnership] at h
    split at h
    · exact Option.noConfusion h
    split at h
    · exact Option.noConfusion h
    obtain rfl := Option.some.inj h
    exact hok

/-- C9: in every reachable state, no table has phase Completed and no
table has hasPendingResult set — the sixth enum value and the pending
flag are dead; and settlement, having passed through Showdown, always
hands the table back in WaitingForPlayers within the same call. -/
theorem c9_completed_and_pending_unreachable :
    (∀ deployer s, Reachable deployer s → tablesOk s = true) ∧
    (∀ now t bank r, storeAndSettle now t bank = some r →
      r.1.phase = GamePhase.WaitingForPlayers) := by
  constructor
  · intro deployer s hr
    induction hr with
    | init => rfl
    | next hprev hstep ih => exact step_tablesOk hstep ih
  · intro now t bank r h
    exact (storeAndSettle_pending h).1

/-- Witness for C9: a freshly created table in a reachable state
satisfies the invariant, and a concrete settlement returns the table in
WaitingForPlayers. -/
theorem c9_witness :
    tablesOk ((step (initState 0) (Op.createTable 1000 2000 5)).getD (initState 0))
      = true ∧
    (((storeAndSettle 600 exTableMidHand 1000000000).getD
      (exTableMidHand, 0)).1).phase = GamePhase.WaitingForPlayers := by
  constructor
  · exact c9_completed_and_pending_unreachable.1 0 _
      (Reachable.next Reachable.init
        (rfl : step (initState 0) (Op.createTable 1000 2000 5) =
          some ((step (initState 0) (Op.createTable 1000 2000 5)).getD (initState 0))))
  · exact c9_completed_and_pending_unreachable.2 600 exTableMidHand 1000000000 _ rfl

theorem walletTotal_setBal (m : List (Nat × Nat)) (a v : Nat) :
    walletTotal (setBal m a v) + getBal m a = walletTotal m + v := by
  induction m with
  | nil => simp [setBal, getBal, walletTotal]
  | cons kv rest ih =>
    obtain ⟨k, w⟩ := kv
    by_cases hk : k = a
    · simp [setBal, getBal, hk, walletTotal]
      omega
    · simp only [setBal, getBal, hk, if_false, walletTotal, List.map_cons,
        List.sum_cons] at ih ⊢
      omega

theorem playersTotal_updateFirst (ps : List Player) (a : Nat) (f : Player → Player)
    (hf : ∀ p, (f p).chips + (f p).bet = p.chips + p.bet) :
    playersTotal (updateFirstPlayer ps a f) = playersTotal ps := by
  induction ps with
  | nil => rfl
  | cons p rest ih =>
    by_cases hp : p.addr = a
    · have := hf p
      simp only [updateFirstPlayer, hp, if_true, playersTotal, List.map_cons,
        List.sum_cons]
      omega
    · simp only [updateFirstPlayer, hp, if_false, playersTotal, List.map_cons,
        List.sum_cons] at ih ⊢
      omega

theorem playersTotal_updateFirst_found (ps : List Player) (a : Nat)
    (f : Player → Player) (p : Player) (hfind : findPlayer ps a = some p) :
    playersTotal (updateFirstPlayer ps a f) + (p.chips + p.bet) =
      playersTotal ps + ((f p).chips + (f p).bet) := by
  induction ps with
  | nil => simp [findPlayer] at hfind
  | cons q rest ih =>
    by_cases hq : q.addr = a
    · have hb : (q.addr == a) = true := beq_iff_eq.mpr hq
      simp only [findPlayer, List.find?_cons, hb] at hfind
      obtain rfl := Option.some.inj hfind
      simp only [updateFirstPlayer, hq, if_true, playersTotal, List.map_cons,
        List.sum_cons]
      omega
    · have hb : (q.addr == a) = false := beq_eq_false_iff_ne.mpr hq
      simp only [findPlayer, List.find?_cons, hb] at hfind
      have := ih hfind
      simp only [updateFirstPlayer, hq, if_false, playersTotal, List.map_cons,
        List.sum_cons] at this ⊢
      omega

theorem playersTotal_removeFirst_found (ps : List Player) (a : Nat) (p : Player)
    (hfind : findPlayer ps a = some p) :
    playersTotal (removeFirstPlayer ps a) + (p.chips + p.bet) = playersTotal ps := by
  induction ps with
  | nil => simp [findPlayer] at hfind
  | cons q rest ih =>
    by_cases hq : q.addr = a
    · have hb : (q.addr == a) = true := beq_iff_eq.mpr hq
      simp only [findPlayer, List.find?_cons, hb] at hfind
      obtain rfl := Option.some.inj hfind
      simp only [removeFirstPlayer, hq, if_true, playersTotal, List.map_cons,
        List.sum_cons]
      omega
    · have hb : (q.addr == a) = false := beq_eq_false_iff_ne.mpr hq
      simp only [findPlayer, List.find?_cons, hb] at hfind
      have := ih hfind
      simp only [removeFirstPlayer, hq, if_false, playersTotal, List.map_cons,
        List.sum_cons] at this ⊢
      omega

theorem playersTotal_modifyAt (ps : List Player) (i : Nat) (f : Player → Player)
    (hf : ∀ p, (f p).chips + (f p).bet = p.chips + p.bet) :
    playersTotal (modifyPlayerAt ps i f) = playersTotal ps := by
  induction ps generalizing i with
  | nil => rfl
  | cons p rest ih =>
    cases i with
    | zero =>
      have := hf p
      simp only [modifyPlayerAt, playersTotal, List.map_cons, List.sum_cons]
      omega
    | succ n =>
      have := ih n
      simp only [modifyPlayerAt, playersTotal, List.map_cons, List.sum_cons] at this ⊢
      omega

theorem playersTotal_map_preserve (ps : List Player) (f : Player → Player)
    (hf : ∀ p, (f p).chips + (f p).bet = p.chips + p.bet) :
    playersTotal (ps.map f) = playersTotal ps := by
  induction ps with
  | nil => rfl
  | cons p rest ih =>
    have := hf p
    simp only [playersTotal, List.map_cons, List.sum_cons] at ih ⊢
    omega

theorem playersTotal_reset (ps : List Player) :
    playersTotal (ps.map fun p =>
      { p with cards := [], isActive := false, hasActed := false, bet := 0 })
      + betTotal ps = playersTotal ps := by
  induction ps with
  | nil => rfl
  | cons p rest ih =>
    simp only [playersTotal, betTotal, List.map_cons, List.sum_cons] at ih ⊢
    omega

theorem activeBetSum_add_forfeit (ps : List Player) :
    activeBetSum ps + forfeitBetSum ps = betTotal ps := by
  induction ps with
  | nil => rfl
  | cons p rest ih =>
    cases hp : p.isActive <;>
      simp [activeBetSum, forfeitBetSum, betTotal, List.filter_cons, hp] at ih ⊢ <;>
      omega

theorem betTotal_eq_of_map_eq {ps qs : List Player}
    (h : ps.map Player.bet = qs.map Player.bet) : betTotal ps = betTotal qs := by
  simp only [betTotal, h]

theorem tablesTotal_set (ts : List Table) (i : Nat) (t t' : Table)
    (h : ts[i]? = some t) :
    tablesTotal (ts.set i t') + playersTotal t.players =
      tablesTotal ts + playersTotal t'.players := by
  induction ts generalizing i with
  | nil => simp at h
  | cons u rest ih =>
    cases i with
    | zero =>
      simp only [List.getElem?_cons_zero, Option.some.injEq] at h
      obtain rfl := h
      simp only [List.set, tablesTotal, List.map_cons, List.sum_cons]
      omega
    | succ n =>
      simp only [List.getElem?_cons_succ] at h
      have := ih n h
      simp only [List.set, tablesTotal, List.map_cons, List.sum_cons] at this ⊢
      omega

theorem tablesTotal_append (ts : List Table) (t : Table) :
    tablesTotal (ts ++ [t]) = tablesTotal ts + playersTotal t.players := by
  simp [tablesTotal]

theorem playersTotal_append (ps : List Player) (p : Player) :
    playersTotal (ps ++ [p]) = playersTotal ps + (p.chips + p.bet) := by
  simp [playersTotal]

/-- Settlement conserves table chips plus the bank: every payout is a
transfer out of the (pot-augmented) bank, and no bet field changes. -/
theorem settleLoop_supply (dv : Nat) (db : Bool) :
    ∀ (ps : List Player) (bank : Nat) (ps' : List Player) (bank' : Nat)
      (rs : List PlayerResult),
      settleLoop dv db ps bank = some (ps', bank', rs) →
      playersTotal ps' + bank' = playersTotal ps + bank ∧
      ps'.map Player.bet = ps.map Player.bet := by
  intro ps
  induction ps with
  | nil =>
    intro bank ps' bank' rs h
    simp only [settleLoop] at h
    have h3 := Option.some.inj h
    rw [Prod.mk.injEq, Prod.mk.injEq] at h3
    obtain ⟨rfl, rfl, rfl⟩ := h3
    exact ⟨rfl, rfl⟩
  | cons q qs ih =>
    intro bank ps' bank' rs h
    simp only [settleLoop] at h
    by_cases hq : q.isActive = false
    · rw [if_pos hq] at h
      cases heq : settleLoop dv db qs bank with
      | none => rw [heq] at h; exact Option.noConfusion h
      | some r =>
        obtain ⟨ps1, b1, rs1⟩ := r
        rw [heq] at h
        simp only at h
        have h3 := Option.some.inj h
        rw [Prod.mk.injEq, Prod.mk.injEq] at h3
        obtain ⟨rfl, rfl, rfl⟩ := h3
        obtain ⟨e1, e2⟩ := ih _ _ _ _ heq
        constructor
        · simp only [playersTotal, List.map_cons, List.sum_cons] at e1 ⊢
          omega
        · simp only [List.map_cons, e2]
    · rw [if_neg hq] at h
      by_cases h21 : 21 < calculateHandValue q.cards
      · rw [if_pos h21] at h
        cases heq : settleLoop dv db qs bank with
        | none => rw [heq] at h; exact Option.noConfusion h
        | some r =>
          obtain ⟨ps1, b1, rs1⟩ := r
          rw [heq] at h
          simp only at h
          have h3 := Option.some.inj h
          rw [Prod.mk.injEq, Prod.mk.injEq] at h3
          obtain ⟨rfl, rfl, rfl⟩ := h3
          obtain ⟨e1, e2⟩ := ih _ _ _ _ heq
          constructor
          · simp only [playersTotal, List.map_cons, List.sum_cons] at e1 ⊢
            omega
          · simp only [List.map_cons, e2]
      · rw [if_neg h21] at h
        by_cases hwin : db = true ∨ dv < calculateHandValue q.cards
        · rw [if_pos hwin] at h
          by_cases hbank : bank <
              (if isBlackjack q.cards = true then q.bet + q.bet * 3 / 2 else q.bet * 2)
          · rw [if_pos hbank] at h
            exact Option.noConfusion h
          · rw [if_neg hbank] at h
            cases heq : settleLoop dv db qs (bank -
                (if isBlackjack q.cards = true then q.bet + q.bet * 3 / 2
                  else q.bet * 2)) with
            | none => rw [heq] at h; exact Option.noConfusion h
            | some r =>
              obtain ⟨ps1, b1, rs1⟩ := r
              rw [heq] at h
              simp only at h
              have h3 := Option.some.inj h
              rw [Prod.mk.injEq, Prod.mk.injEq] at h3
              obtain ⟨rfl, rfl, rfl⟩ := h3
              obtain ⟨e1, e2⟩ := ih _ _ _ _ heq
              constructor
              · simp only [playersTotal, List.map_cons, List.sum_cons] at e1 ⊢
                omega
              · simp only [List.map_cons, e2]
        · rw [if_neg hwin] at h
          by_cases hpush : calculateHandValue q.cards = dv
          · rw [if_pos hpush] at h
            by_cases hbank : bank < q.bet
            · rw [if_pos hbank] at h
              exact Option.noConfusion h
            · rw [if_neg hbank] at h
              cases heq : settleLoop dv db qs (bank - q.bet) with
              | none => rw [heq] at h; exact Option.noConfusion h
              | some r =>
                obtain ⟨ps1, b1, rs1⟩ := r
                rw [heq] at h
                simp only at h
                have h3 := Option.some.inj h
                rw [Prod.mk.injEq, Prod.mk.injEq] at h3
                obtain ⟨rfl, rfl, rfl⟩ := h3
                obtain ⟨e1, e2⟩ := ih _ _ _ _ heq
                constructor
                · simp only [playersTotal, List.map_cons, List.sum_cons] at e1 ⊢
                  omega
                · simp only [List.map_cons, e2]
          · rw [if_neg hpush] at h
            cases heq : settleLoop dv db qs bank with
            | none => rw [heq] at h; exact Option.noConfusion h
            | some r =>
              obtain ⟨ps1, b1, rs1⟩ := r
              rw [heq] at h
              simp only at h
              have h3 := Option.some.inj h
              rw [Prod.mk.injEq, Prod.mk.injEq] at h3
              obtain ⟨rfl, rfl, rfl⟩ := h3
              obtain ⟨e1, e2⟩ := ih _ _ _ _ heq
              constructor
              · simp only [playersTotal, List.map_cons, List.sum_cons] at e1 ⊢
                omega
              · simp only [List.map_cons, e2]

/-- `_storeAndSettle` burns exactly the inactive players' bets: it
collects only the active bets into the bank, settles out of the bank, and
then zeroes every bet field. -/
theorem storeAndSettle_supply {now : Nat} {t : Table} {bank : Nat}
    {t' : Table} {bank' : Nat}
    (h : storeAndSettle now t bank = some (t', bank')) :
    playersTotal t'.players + bank' + forfeitBetSum t.players =
      playersTotal t.players + bank := by
  simp only [storeAndSettle] at h
  cases heq : settleLoop (calculateHandValue t.dealer.cards)
      (decide (21 < calculateHandValue t.dealer.cards)) t.players
      (bank + activeBetSum t.players) with
  | none => rw [heq] at h; exact Option.noConfusion h
  | some r =>
    obtain ⟨ps1, b1, rs1⟩ := r
    rw [heq] at h
    simp only at h
    have h3 := Option.some.inj h
    rw [Prod.mk.injEq] at h3
    obtain ⟨rfl, rfl⟩ := h3
    obtain ⟨e1, e2⟩ := settleLoop_supply _ _ t.players _ ps1 b1 rs1 heq
    have r1 := playersTotal_reset ps1
    have r2 := betTotal_eq_of_map_eq e2
    have r3 := activeBetSum_add_forfeit t.players
    simp only [resetHand]
    omega

theorem playersTotal_dealCardToPlayer (seed : Nat) (t : Table) (a : Nat) :
    playersTotal (dealCardToPlayer seed t a).players = playersTotal t.players := by
  calc playersTotal (dealCardToPlayer seed t a).players
      = playersTotal (ensureCardsAvailable seed t 1).players :=
        playersTotal_updateFirst _ _ _ (fun p => rfl)
    _ = playersTotal t.players := by
        rw [(ensureCardsAvailable_fields seed t 1).2.2]

/-- The dealing loop of `_startNewHand` moves no chips: it only clears
hands, deals cards and toggles flags. -/
theorem startNewHandDeal_supply (seed : Nat) :
    ∀ (fuel i : Nat) (t : Table),
      playersTotal (startNewHandDeal seed fuel i t).players =
        playersTotal t.players := by
  intro fuel
  induction fuel with
  | zero => intro i t; rfl
  | succ n ih =>
    intro i t
    rw [startNewHandDeal]
    cases hp : t.players[i]? with
    | none => simp only [hp]
    | some p =>
      simp only [hp]
      rw [ih]
      split
      · rw [playersTotal_dealCardToPlayer, playersTotal_dealCardToPlayer]
        exact playersTotal_modifyAt _ _ _ (fun q => rfl)
      · exact playersTotal_modifyAt _ _ _ (fun q => rfl)

theorem startDealerTurn_supply {seed now : Nat} {t : Table} {bank : Nat}
    {t' : Table} {bank' : Nat}
    (h : startDealerTurn seed now t bank = some (t', bank')) :
    playersTotal t'.players + bank' ≤ playersTotal t.players + bank := by
  simp only [startDealerTurn] at h
  split at h
  · have hs := storeAndSettle_supply h
    simp only at hs
    omega
  · have hs := storeAndSettle_supply h
    have hd := (dealerLoop_fields seed 32 { t with phase := GamePhase.DealerTurn }).2.2
    simp only at hs hd
    rw [hd] at hs
    omega

theorem advanceToNextPlayer_supply {seed now : Nat} {t : Table} {bank : Nat}
    {t' : Table} {bank' : Nat}
    (h : advanceToNextPlayer seed now t bank = some (t', bank')) :
    playersTotal t'.players + bank' ≤ playersTotal t.players + bank := by
  simp only [advanceToNextPlayer] at h
  split at h
  · have h3 := Option.some.inj h
    rw [Prod.mk.injEq] at h3
    obtain ⟨rfl, rfl⟩ := h3
    exact Nat.le_refl _
  · exact startDealerTurn_supply h

theorem checkForNaturalBlackjacks_supply {seed now : Nat} {t : Table} {bank : Nat}
    {t' : Table} {bank' : Nat}
    (h : checkForNaturalBlackjacks seed now t bank = some (t', bank')) :
    playersTotal t'.players + bank' ≤ playersTotal t.players + bank := by
  simp only [checkForNaturalBlackjacks] at h
  have hmap : playersTotal (t.players.map fun p =>
      if p.isActive && isBlackjack p.cards then { p with hasActed := true } else p) =
      playersTotal t.players := by
    refine playersTotal_map_preserve _ _ ?_
    intro p
    split <;> rfl
  split at h
  · have hs := startDealerTurn_supply h
    simp only at hs
    rw [hmap] at hs
    omega
  · have h3 := Option.some.inj h
    rw [Prod.mk.injEq] at h3
    obtain ⟨rfl, rfl⟩ := h3
    have hfin : playersTotal (t.players.map fun p =>
        if p.isActive && isBlackjack p.cards then { p with hasActed := true } else p)
        + bank ≤ playersTotal t.players + bank := by
      rw [hmap]
    exact hfin

theorem startNewHand_supply {seed now : Nat} {t : Table} {bank : Nat}
    {t' : Table} {bank' : Nat}
    (h : startNewHand seed now t bank = some (t', bank')) :
    playersTotal t'.players + bank' ≤ playersTotal t.players + bank := by
  simp only [startNewHand] at h
  split at h
  · exact Option.noConfusion h
  rename_i r t6 bank2 heq
  have hc := checkForNaturalBlackjacks_supply heq
  have hd : ∀ u : Table, (dealCardToDealer seed u).players = u.players :=
    fun u => (dealCardToDealer_fields seed u).2.2
  simp only [hd, startNewHandDeal_supply] at hc
  have h3 := Option.some.inj h
  rw [Prod.mk.injEq] at h3
  obtain ⟨rfl, rfl⟩ := h3
  split
  · exact hc
  · exact hc

/-- `placeBet` never increases table chips plus bank: the fresh bet is
moved from the stack into the bet field, the caller's previous bet (if
any) is overwritten without a refund, and a triggered hand start can only
settle (which burns inactive bets). -/
theorem placeBetAction_supply {seed now : Nat} {t : Table} {sender amt bank : Nat}
    {t2 : Table} {bank2 : Nat}
    (h : placeBetAction seed now t sender amt bank = some (t2, bank2)) :
    playersTotal t2.players + bank2 ≤ playersTotal t.players + bank := by
  simp only [placeBetAction] at h
  split at h
  · exact Option.noConfusion h
  split at h
  · exact Option.noConfusion h
  rename_i p hfp
  split at h
  · exact Option.noConfusion h
  rename_i hamt
  rw [not_not] at hamt
  have hu := playersTotal_updateFirst_found t.players sender
    (fun q : Player => { q with
      bet := amt
      chips := q.chips - amt
      isActive := true
      hasActed := true }) p hfp
  simp only at hu
  split at h
  · have hs := startNewHand_supply h
    simp only at hs
    omega
  · have h3 := Option.some.inj h
    rw [Prod.mk.injEq] at h3
    obtain ⟨rfl, rfl⟩ := h3
    have hfin : playersTotal (updateFirstPlayer t.players sender
        (fun q : Player => { q with
          bet := amt
          chips := q.chips - amt
          isActive := true
          hasActed := true })) + bank ≤ playersTotal t.players + bank := by
      omega
    exact hfin

theorem hitAction_supply {seed now : Nat} {t : Table} {sender bank : Nat}
    {t2 : Table} {bank2 : Nat}
    (h : hitAction seed now t sender bank = some (t2, bank2)) :
    playersTotal t2.players + bank2 ≤ playersTotal t.players + bank := by
  simp only [hitAction] at h
  split at h
  · exact Option.noConfusion h
  split at h
  · exact Option.noConfusion h
  split at h
  · exact Option.noConfusion h
  split at h
  · exact Option.noConfusion h
  rename_i p1 hfp1
  have hdeal := playersTotal_dealCardToPlayer seed t sender
  split at h
  · have hs := advanceToNextPlayer_supply h
    simp only at hs
    rw [playersTotal_updateFirst _ _
      (fun q : Player => { q with isActive := false, hasActed := true })
      (fun q => rfl), hdeal] at hs
    exact hs
  · have h3 := Option.some.inj h
    rw [Prod.mk.injEq] at h3
    obtain ⟨rfl, rfl⟩ := h3
    have hfin : playersTotal (dealCardToPlayer seed t sender).players + bank ≤
        playersTotal t.players + bank := by
      rw [hdeal]
    exact hfin

theorem standAction_supply {seed now : Nat} {t : Table} {sender bank : Nat}
    {t2 : Table} {bank2 : Nat}
    (h : standAction seed now t sender bank = some (t2, bank2)) :
    playersTotal t2.players + bank2 ≤ playersTotal t.players + bank := by
  simp only [standAction] at h
  split at h
  · exact Option.noConfusion h
  split at h
  · exact Option.noConfusion h
  split at h
  · exact Option.noConfusion h
  split at h
  · exact Option.noConfusion h
  have hs := advanceToNextPlayer_supply h
  simp only at hs
  rw [playersTotal_updateFirst _ _
    (fun q : Player => { q with hasActed := true }) (fun q => rfl)] at hs
  exact hs

theorem doubleDownAction_supply {seed now : Nat} {t : Table} {sender bank : Nat}
    {t2 : Table} {bank2 : Nat}
    (h : doubleDownAction seed now t sender bank = some (t2, bank2)) :
    playersTotal t2.players + bank2 ≤ playersTotal t.players + bank := by
  simp only [doubleDownAction] at h
  split at h
  · exact Option.noConfusion h
  split at h
  · exact Option.noConfusion h
  split at h
  · exact Option.noConfusion h
  split at h
  · exact Option.noConfusion h
  rename_i p hfp
  split at h
  · exact Option.noConfusion h
  split at h
  · exact Option.noConfusion h
  rename_i hchips
  split at h
  · exact Option.noConfusion h
  rename_i p2 hfp2
  have hu := playersTotal_updateFirst_found t.players sender
    (fun q : Player => { q with
      chips := q.chips - q.bet
      bet := q.bet * 2
      hasActed := true }) p hfp
  simp only at hu
  have hs := advanceToNextPlayer_supply h
  simp only at hs
  split at hs
  · rw [playersTotal_updateFirst _ _
      (fun q : Player => { q with isActive := false }) (fun q => rfl),
      playersTotal_dealCardToPlayer] at hs
    simp only at hs
    omega
  · rw [playersTotal_dealCardToPlayer] at hs
    simp only at hs
    omega

theorem forceAdvanceAction_supply {seed now : Nat} {t : Table} {bank : Nat}
    {t2 : Table} {bank2 : Nat}
    (h : forceAdvanceAction seed now t bank = some (t2, bank2)) :
    playersTotal t2.players + bank2 ≤ playersTotal t.players + bank := by
  simp only [forceAdvanceAction] at h
  split at h
  · exact Option.noConfusion h
  split at h
  · exact Option.noConfusion h
  split at h
  · have hs := advanceToNextPlayer_supply h
    simp only at hs
    rw [playersTotal_modifyAt _ _
      (fun q : Player => { q with hasActed := true }) (fun q => rfl)] at hs
    exact hs
  · exact startDealerTurn_supply h

theorem getTable_some {s : BJState} {tid : Nat} {t : Table}
    (h : getTable s tid = some t) : s.tables[tid - 1]? = some t := by
  simp only [getTable] at h
  split at h
  · exact h
  · exact Option.noConfusion h

theorem supply_claimFreeChips {s : BJState} {a : Nat} {s' : BJState}
    (h : claimFreeChips s a = some s') : chipSupply s' = chipSupply s + 10000 := by
  simp only [claimFreeChips] at h
  split at h
  · exact Option.noConfusion h
  split at h
  · exact Option.noConfusion h
  split at h
  · exact Option.noConfusion h
  obtain rfl := Option.some.inj h
  have hw := walletTotal_setBal s.playerChips a (getBal s.playerChips a + 10000)
  simp only [chipSupply, addBal]
  omega

theorem supply_buyChips {s : BJState} {a v : Nat} {s' : BJState}
    (h : buyChips s a v = some s') : chipSupply s' = chipSupply s + ethToChips v := by
  simp only [buyChips] at h
  split at h
  · exact Option.noConfusion h
  split at h
  · exact Option.noConfusion h
  split at h
  · exact Option.noConfusion h
  obtain rfl := Option.some.inj h
  have hw := walletTotal_setBal s.playerChips a (getBal s.playerChips a + ethToChips v)
  simp only [chipSupply, addBal]
  omega

theorem supply_withdrawChips {s : BJState} {a c : Nat} {s' : BJState}
    (h : withdrawChips s a c = some s') : chipSupply s' + c = chipSupply s := by
  simp only [withdrawChips] at h
  split at h
  · exact Option.noConfusion h
  split at h
  · exact Option.noConfusion h
  split at h
  · exact Option.noConfusion h
  rename_i hbal
  split at h
  · exact Option.noConfusion h
  split at h
  · exact Option.noConfusion h
  split at h
  · exact Option.noConfusion h
  obtain rfl := Option.some.inj h
  have hw := walletTotal_setBal s.playerChips a (getBal s.playerChips a - c)
  simp only [chipSupply, subBal]
  omega

theorem supply_fundBank {s : BJState} {a v : Nat} {s' : BJState}
    (h : fundBank s a v = some s') : chipSupply s' = chipSupply s + ethToChips v := by
  simp only [fundBank] at h
  split at h
  · exact Option.noConfusion h
  split at h
  · exact Option.noConfusion h
  obtain rfl := Option.some.inj h
  simp only [chipSupply]
  omega

theorem supply_defundBank {s : BJState} {a c : Nat} {s' : BJState}
    (h : defundBank s a c = some s') : chipSupply s' + c = chipSupply s := by
  simp only [defundBank] at h
  split at h
  · exact Option.noConfusion h
  split at h
  · exact Option.noConfusion h
  rename_i hc
  rw [not_not] at hc
  split at h
  · exact Option.noConfusion h
  split at h
  · exact Option.noConfusion h
  obtain rfl := Option.some.inj h
  simp only [chipSupply]
  omega

theorem supply_createTable {s : BJState} {minB maxB now : Nat} {s' : BJState}
    (h : createTable s minB maxB now = some s') : chipSupply s' = chipSupply s := by
  simp only [createTable] at h
  split at h
  · exact Option.noConfusion h
  split at h
  · exact Option.noConfusion h
  split at h
  · exact Option.noConfusion h
  obtain rfl := Option.some.inj h
  simp [chipSupply, tablesTotal_append, playersTotal]

theorem supply_pause {s : BJState} {a : Nat} {s' : BJState}
    (h : pause s a = some s') : chipSupply s' = chipSupply s := by
  simp only [pause] at h
  split at h
  · exact Option.noConfusion h
  obtain rfl := Option.some.inj h
  rfl

theorem supply_unpause {s : BJState} {a : Nat} {s' : BJState}
    (h : unpause s a = some s') : chipSupply s' = chipSupply s := by
  simp only [unpause] at h
  split at h
  · exact Option.noConfusion h
  obtain rfl := Option.some.inj h
  rfl

theorem supply_transferOwnership {s : BJState} {a o : Nat} {s' : BJState}
    (h : transferOwnership s a o = some s') : chipSupply s' = chipSupply s := by
  simp only [transferOwnership] at h
  split at h
  · exact Option.noConfusion h
  split at h
  · exact Option.noConfusion h
  obtain rfl := Option.some.inj h
  rfl

theorem supply_topUpTableChips {s : BJState} {a tid amt now : Nat} {s' : BJState}
    (h : topUpTableChips s a tid amt now = some s') : chipSupply s' = chipSupply s := by
  simp only [topUpTableChips] at h
  split at h
  · exact Option.noConfusion h
  split at h
  · exact Option.noConfusion h
  split at h
  · exact Option.noConfusion h
  split at h
  · exact Option.noConfusion h
  split at h
  · exact Option.noConfusion h
  rename_i t hget
  split at h
  · exact Option.noConfusion h
  split at h
  · exact Option.noConfusion h
  rename_i hbal
  split at h
  · exact Option.noConfusion h
  rename_i hfpn
  obtain rfl := Option.some.inj h
  cases hfind : findPlayer t.players a with
  | none => rw [hfind] at hfpn; exact absurd rfl hfpn
  | some p =>
    have hts := tablesTotal_set s.tables (tid - 1) t
      { t with
        players := updateFirstPlayer t.players a fun p : Player =>
          { p with chips := p.chips + amt }
        lastActivityTimestamp := now }
      (getTable_some hget)
    have hu := playersTotal_updateFirst_found t.players a
      (fun p : Player => { p with chips := p.chips + amt }) p hfind
    simp only at hts hu
    have hw := walletTotal_setBal s.playerChips a (getBal s.playerChips a - amt)
    simp only [chipSupply, setTable, subBal]
    omega

theorem supply_joinTable {s : BJState} {a tid b now : Nat} {s' : BJState}
    (h : joinTable s a tid b now = some s') : chipSupply s' = chipSupply s := by
  simp only [joinTable] at h
  split at h
  · exact Option.noConfusion h
  split at h
  · exact Option.noConfusion h
  rename_i t hget
  split at h
  · exact Option.noConfusion h
  split at h
  · exact Option.noConfusion h
  split at h
  · exact Option.noConfusion h
  split at h
  · exact Option.noConfusion h
  rename_i hbal
  obtain rfl := Option.some.inj h
  have hw := walletTotal_setBal s.playerChips a (getBal s.playerChips a - b)
  split
  · have hts := tablesTotal_set s.tables (tid - 1) t
      { t with
        status := TableStatus.Active
        players := t.players ++
          [{ addr := a, chips := b, bet := 0, cards := [], isActive := false,
             hasActed := true }]
        lastActivityTimestamp := now }
      (getTable_some hget)
    simp only [playersTotal_append] at hts
    simp only [chipSupply, setTable, subBal]
    omega
  · have hts := tablesTotal_set s.tables (tid - 1) t
      { t with
        players := t.players ++
          [{ addr := a, chips := b, bet := 0, cards := [], isActive := false,
             hasActed := true }]
        lastActivityTimestamp := now }
      (getTable_some hget)
    simp only [playersTotal_append] at hts
    simp only [chipSupply, setTable, subBal]
    omega

theorem supply_leaveTable {s : BJState} {a tid now : Nat} {s' : BJState}
    {t : Table} {p : Player}
    (h : leaveTable s a tid now = some s') (hget : getTable s tid = some t)
    (hfp : findPlayer t.players a = some p) :
    chipSupply s' + p.bet = chipSupply s := by
  simp only [leaveTable] at h
  split at h
  · exact Option.noConfusion h
  split at h
  · exact Option.noConfusion h
  split at h
  · exact Option.noConfusion h
  rename_i t0 hget0
  rw [hget0] at hget
  obtain rfl := Option.some.inj hget
  split at h
  · exact Option.noConfusion h
  rename_i p0 hfp0
  rw [hfp0] at hfp
  obtain rfl := Option.some.inj hfp
  have hw := walletTotal_setBal s.playerChips a (getBal s.playerChips a + p0.chips)
  have hrm := playersTotal_removeFirst_found t0.players a p0 hfp0
  split at h
  · obtain rfl := Option.some.inj h
    have hts := tablesTotal_set s.tables (tid - 1) t0
      { t0 with
        players := removeFirstPlayer t0.players a
        lastActivityTimestamp := now }
      (getTable_some hget0)
    simp only at hts
    simp only [chipSupply, setTable, addBal]
    omega
  · obtain rfl := Option.some.inj h
    cases hlen : decide ((removeFirstPlayer t0.players a).length < 2) with
    | true =>
      rw [if_pos (of_decide_eq_true hlen)]
      have hts := tablesTotal_set s.tables (tid - 1) t0
        { t0 with
          players := removeFirstPlayer t0.players a
          status := TableStatus.Waiting
          phase := GamePhase.WaitingForPlayers
          lastActivityTimestamp := now }
        (getTable_some hget0)
      simp only at hts
      simp only [chipSupply, setTable, addBal]
      omega
    | false =>
      rw [if_neg (of_decide_eq_false hlen)]
      have hts := tablesTotal_set s.tables (tid - 1) t0
        { t0 with
          players := removeFirstPlayer t0.players a
          lastActivityTimestamp := now }
        (getTable_some hget0)
      simp only at hts
      simp only [chipSupply, setTable, addBal]
      omega

theorem supply_cashOut {s : BJState} {a tid now : Nat} {s' : BJState}
    {t : Table} {p : Player}
    (h : cashOut s a tid now = some s') (hget : getTable s tid = some t)
    (hfp : findPlayer t.players a = some p) :
    chipSupply s' + p.bet = chipSupply s := by
  simp only [cashOut] at h
  split at h
  · exact Option.noConfusion h
  split at h
  · exact Option.noConfusion h
  split at h
  · exact Option.noConfusion h
  rename_i t0 hget0
  rw [hget0] at hget
  obtain rfl := Option.some.inj hget
  split at h
  · exact Option.noConfusion h
  split at h
  · exact Option.noConfusion h
  rename_i p0 hfp0
  rw [hfp0] at hfp
  obtain rfl := Option.some.inj hfp
  split at h
  · exact Option.noConfusion h
  obtain rfl := Option.some.inj h
  have hw := walletTotal_setBal s.playerChips a (getBal s.playerChips a + p0.chips)
  have hrm := playersTotal_removeFirst_found t0.players a p0 hfp0
  cases hlen : decide ((removeFirstPlayer t0.players a).length < 2) with
  | true =>
    rw [if_pos (of_decide_eq_true hlen)]
    have hts := tablesTotal_set s.tables (tid - 1) t0
      { t0 with
        players := removeFirstPlayer t0.players a
        status := TableStatus.Waiting
        phase := GamePhase.WaitingForPlayers
        lastActivityTimestamp := now }
      (getTable_some hget0)
    simp only at hts
    simp only [chipSupply, setTable, addBal]
    omega
  | false =>
    rw [if_neg (of_decide_eq_false hlen)]
    have hts := tablesTotal_set s.tables (tid - 1) t0
      { t0 with
        players := removeFirstPlayer t0.players a
        lastActivityTimestamp := now }
      (getTable_some hget0)
    simp only at hts
    simp only [chipSupply, setTable, addBal]
    omega

theorem supply_placeBet {s : BJState} {a tid amt now seed : Nat} {s' : BJState}
    (h : placeBet s a tid amt now seed = some s') : chipSupply s' ≤ chipSupply s := by
  simp only [placeBet] at h
  split at h
  · exact Option.noConfusion h
  split at h
  · exact Option.noConfusion h
  split at h
  · exact Option.noConfusion h
  rename_i t hget
  split at h
  · exact Option.noConfusion h
  rename_i r t2 bank2 heq
  obtain rfl := Option.some.inj h
  have hact := placeBetAction_supply heq
  have hts := tablesTotal_set s.tables (tid - 1) t
    { t2 with lastActivityTimestamp := now } (getTable_some hget)
  simp only at hts
  simp only [chipSupply, setTable]
  omega

theorem supply_hit {s : BJState} {a tid now seed : Nat} {s' : BJState}
    (h : hit s a tid now seed = some s') : chipSupply s' ≤ chipSupply s := by
  simp only [hit] at h
  split at h
  · exact Option.noConfusion h
  split at h
  · exact Option.noConfusion h
  split at h
  · exact Option.noConfusion h
  rename_i t hget
  split at h
  · exact Option.noConfusion h
  rename_i r t2 bank2 heq
  obtain rfl := Option.some.inj h
  have hact := hitAction_supply heq
  have hts := tablesTotal_set s.tables (tid - 1) t
    { t2 with lastActivityTimestamp := now } (getTable_some hget)
  simp only at hts
  simp only [chipSupply, setTable]
  omega

theorem supply_stand {s : BJState} {a tid now seed : Nat} {s' : BJState}
    (h : stand s a tid now seed = some s') : chipSupply s' ≤ chipSupply s := by
  simp only [stand] at h
  split at h
  · exact Option.noConfusion h
  split at h
  · exact Option.noConfusion h
  split at h
  · exact Option.noConfusion h
  rename_i t hget
  split at h
  · exact Option.noConfusion h
  rename_i r t2 bank2 heq
  obtain rfl := Option.some.inj h
  have hact := standAction_supply heq
  have hts := tablesTotal_set s.tables (tid - 1) t
    { t2 with lastActivityTimestamp := now } (getTable_some hget)
  simp only at hts
  simp only [chipSupply, setTable]
  omega

theorem supply_doubleDown {s : BJState} {a tid now seed : Nat} {s' : BJState}
    (h : doubleDown s a tid now seed = some s') : chipSupply s' ≤ chipSupply s := by
  simp only [doubleDown] at h
  split at h
  · exact Option.noConfusion h
  split at h
  · exact Option.noConfusion h
  split at h
  · exact Option.noConfusion h
  rename_i t hget
  split at h
  · exact Option.noConfusion h
  rename_i r t2 bank2 heq
  obtain rfl := Option.some.inj h
  have hact := doubleDownAction_supply heq
  have hts := tablesTotal_set s.tables (tid - 1) t
    { t2 with lastActivityTimestamp := now } (getTable_some hget)
  simp only at hts
  simp only [chipSupply, setTable]
  omega

theorem supply_forceAdvance {s : BJState} {tid now seed : Nat} {s' : BJState}
    (h : forceAdvanceOnTimeout s tid now seed = some s') :
    chipSupply s' ≤ chipSupply s := by
  simp only [forceAdvanceOnTimeout] at h
  split at h
  · exact Option.noConfusion h
  split at h
  · exact Option.noConfusion h
  rename_i t hget
  split at h
  · exact Option.noConfusion h
  rename_i r t2 bank2 heq
  obtain rfl := Option.some.inj h
  have hact := forceAdvanceAction_supply heq
  have hts := tablesTotal_set s.tables (tid - 1) t
    { t2 with lastActivityTimestamp := now } (getTable_some hget)
  simp only at hts
  simp only [chipSupply, setTable]
  omega

/-- C1 counterexample: the claimed conservation fails on three of the
operations the claim singles out as sum-preserving.  `claimFreeChips`
mints 10,000 chips into the wallet total; a mid-hand `leaveTable` burns
the leaver's 2,000-chip bet; a repeated `placeBet` burns the previous
500-chip bet (the bet field is overwritten and the stack debited again)
while the table stays in the betting phase. -/
theorem c1_counterexample :
    ((claimFreeChips exStateMidHand 7).isSome = true ∧
      chipSupply ((claimFreeChips exStateMidHand 7).getD exStateMidHand) =
        chipSupply exStateMidHand + 10000 ∧
      chipSupply ((claimFreeChips exStateMidHand 7).getD exStateMidHand) ≠
        chipSupply exStateMidHand) ∧
    ((leaveTable exStateMidHand 1 1 200).isSome = true ∧
      chipSupply ((leaveTable exStateMidHand 1 1 200).getD exStateMidHand) + 2000 =
        chipSupply exStateMidHand ∧
      chipSupply ((leaveTable exStateMidHand 1 1 200).getD exStateMidHand) ≠
        chipSupply exStateMidHand) ∧
    ((placeBet exStateRebet 1 1 1000 300 0).isSome = true ∧
      chipSupply ((placeBet exStateRebet 1 1 1000 300 0).getD exStateRebet) + 500 =
        chipSupply exStateRebet ∧
      chipSupply ((placeBet exStateRebet 1 1 1000 300 0).getD exStateRebet) ≠
        chipSupply exStateRebet ∧
      ((placeBet exStateRebet 1 1 1000 300 0).getD exStateRebet).tables.all
        (fun t => decide (t.phase = GamePhase.WaitingForPlayers)) = true) :=
  ⟨⟨rfl, by decide, by decide⟩, ⟨rfl, by decide, by decide⟩,
    ⟨rfl, by decide, by decide, rfl⟩⟩

/-- C1 (amended): `chipSupply` — wallets + table stacks and bets + the
bank float — changes by exactly the converted amount on the four
funding operations, is conserved exactly by topUpTableChips, joinTable,
createTable, pause, unpause and transferOwnership, but: claimFreeChips
mints exactly 10,000 chips; leaveTable and cashOut burn the leaver's
standing bet; and every operation's supply increase is bounded by its
explicit mint (`opMint`), so the gameplay operations (placeBet, hit,
stand, doubleDown, forceAdvanceOnTimeout) can only preserve or burn
(repeated bets and unsettled inactive bets are burned). -/
theorem c1_conservation_with_mint_and_burn :
    (∀ (s : BJState) (a v : Nat) (s' : BJState),
      step s (Op.buyChips a v) = some s' →
      chipSupply s' = chipSupply s + ethToChips v) ∧
    (∀ (s : BJState) (a c : Nat) (s' : BJState),
      step s (Op.withdrawChips a c) = some s' →
      chipSupply s' + c = chipSupply s) ∧
    (∀ (s : BJState) (a v : Nat) (s' : BJState),
      step s (Op.fundBank a v) = some s' →
      chipSupply s' = chipSupply s + ethToChips v) ∧
    (∀ (s : BJState) (a c : Nat) (s' : BJState),
      step s (Op.defundBank a c) = some s' →
      chipSupply s' + c = chipSupply s) ∧
    (∀ (s : BJState) (a : Nat) (s' : BJState),
      step s (Op.claimFreeChips a) = some s' →
      chipSupply s' = chipSupply s + 10000) ∧
    (∀ (s : BJState) (a tid amt now : Nat) (s' : BJState),
      step s (Op.topUpTableChips a tid amt now) = some s' →
      chipSupply s' = chipSupply s) ∧
    (∀ (s : BJState) (a tid b now : Nat) (s' : BJState),
      step s (Op.joinTable a tid b now) = some s' →
      chipSupply s' = chipSupply s) ∧
    (∀ (s : BJState) (minB maxB now : Nat) (s' : BJState),
      step s (Op.createTable minB maxB now) = some s' →
      chipSupply s' = chipSupply s) ∧
    (∀ (s : BJState) (a tid now : Nat) (s' : BJState) (t : Table) (p : Player),
      step s (Op.leaveTable a tid now) = some s' →
      getTable s tid = some t → findPlayer t.players a = some p →
      chipSupply s' + p.bet = chipSupply s) ∧
    (∀ (s : BJState) (a tid now : Nat) (s' : BJState) (t : Table) (p : Player),
      step s (Op.cashOut a tid now) = some s' →
      getTable s tid = some t → findPlayer t.players a = some p →
      chipSupply s' + p.bet = chipSupply s) ∧
    (∀ (s : BJState) (op : Op) (s' : BJState),
      step s op = some s' → chipSupply s' ≤ chipSupply s + opMint op) := by
  refine ⟨?_, ?_, ?_, ?_, ?_, ?_, ?_, ?_, ?_, ?_, ?_⟩
  · intro s a v s' h
    exact supply_buyChips h
  · intro s a c s' h
    exact supply_withdrawChips h
  · intro s a v s' h
    exact supply_fundBank h
  · intro s a c s' h
    exact supply_defundBank h
  · intro s a s' h
    exact supply_claimFreeChips h
  · intro s a tid amt now s' h
    exact supply_topUpTableChips h
  · intro s a tid b now s' h
    exact supply_joinTable h
  · intro s minB maxB now s' h
    exact supply_createTable h
  · intro s a tid now s' t p h hget hfp
    exact supply_leaveTable h hget hfp
  · intro s a tid now s' t p h hget hfp
    exact supply_cashOut h hget hfp
  · intro s op s' h
    cases op with
    | claimFreeChips a =>
      have := supply_claimFreeChips h
      simp only [opMint]
      omega
    | buyChips a v =>
      have := supply_buyChips h
      simp only [opMint]
      omega
    | withdrawChips a c =>
      have := supply_withdrawChips h
      simp only [opMint]
      omega
    | topUpTableChips a tid amt now =>
      have := supply_topUpTableChips h
      simp only [opMint]
      omega
    | fundBank a v =>
      have := supply_fundBank h
      simp only [opMint]
      omega
    | defundBank a c =>
      have := supply_defundBank h
      simp only [opMint]
      omega
    | createTable minB maxB now =>
      have := supply_createTable h
      simp only [opMint]
      omega
    | joinTable a tid b now =>
      have := supply_joinTable h
      simp only [opMint]
      omega
    | leaveTable a tid now =>
      have h0 := h
      simp only [step, leaveTable] at h
      split at h
      · exact Option.noConfusion h
      split at h
      · exact Option.noConfusion h
      split at h
      · exact Option.noConfusion h
      rename_i t hget
      split at h
      · exact Option.noConfusion h
      rename_i p hfp
      have := supply_leaveTable h0 hget hfp
      simp only [opMint]
      omega
    | cashOut a tid now =>
      have h0 := h
      simp only [step, cashOut] at h
      split at h
      · exact Option.noConfusion h
      split at h
      · exact Option.noConfusion h
      split at h
      · exact Option.noConfusion h
      rename_i t hget
      split at h
      · exact Option.noConfusion h
      split at h
      · exact Option.noConfusion h
      rename_i p hfp
      have := supply_cashOut h0 hget hfp
      simp only [opMint]
      omega
    | placeBet a tid amt now seed =>
      have := supply_placeBet h
      simp only [opMint]
      omega
    | hit a tid now seed =>
      have := supply_hit h
      simp only [opMint]
      omega
    | stand a tid now seed =>
      have := supply_stand h
      simp only [opMint]
      omega
    | doubleDown a tid now seed =>
      have := supply_doubleDown h
      simp only [opMint]
      omega
    | forceAdvanceOnTimeout tid now seed =>
      have := supply_forceAdvance h
      simp only [opMint]
      omega
    | pause a =>
      have := supply_pause h
      simp only [opMint]
      omega
    | unpause a =>
      have := supply_unpause h
      simp only [opMint]
      omega
    | transferOwnership a o =>
      have := supply_transferOwnership h
      simp only [opMint]
      omega

/-- Witness for C1: a concrete `buyChips` deposit of 3 chips' worth of
wei raises the supply by exactly the converted amount. -/
theorem c1_witness :
    chipSupply ((step exStateMidHand (Op.buyChips 7 30000000000)).getD exStateMidHand) =
      chipSupply exStateMidHand + ethToChips 30000000000 :=
  c1_conservation_with_mint_and_burn.1 exStateMidHand 7 30000000000 _ rfl

end Blackjack

